import Mathlib

/-!
Verification development for the deterministic support engine of the
AI exam analyzer repository: tokenization, retrieval, clustering,
repeat reconstruction, perceptual-hash distance and decision policy.

Python floats are idealized as real numbers (every IEEE float value is a
rational, hence a real); integer and string computations are embedded
exactly.  Stateful Python code is embedded as explicit state passing.
-/

namespace AIExam

set_option maxRecDepth 40000

/-! ## Character-level helpers shared by the tokenizers.

The repository's data is German/ASCII text; `str.lower` and `str.isalnum`
are modelled over the alphabet the source manipulates: ASCII letters and
digits plus the German letters named in `_TOKEN_RE`
(knowledge_base.py line 15). -/

/-- Model of Python `str.lower` on a single character, covering the ASCII
letters (code points 65-90) and the uppercase German letters Ä (196),
Ö (214), Ü (220) admitted by `_TOKEN_RE`. -/
def pyLower (c : Char) : Char :=
  if 65 ≤ c.toNat ∧ c.toNat ≤ 90 then Char.ofNat (c.toNat + 32)
  else if c.toNat = 196 then 'ä'
  else if c.toNat = 214 then 'ö'
  else if c.toNat = 220 then 'ü'
  else c

/-- Character class of `_TOKEN_RE = [A-Za-zÄÖÜäöüß0-9]`
(knowledge_base.py line 15), by code point: A-Z (65-90), a-z (97-122),
0-9 (48-57), Ä (196), Ö (214), Ü (220), ä (228), ö (246), ü (252),
ß (223). -/
def isTokenChar (c : Char) : Bool :=
  (65 ≤ c.toNat ∧ c.toNat ≤ 90) ∨ (97 ≤ c.toNat ∧ c.toNat ≤ 122) ∨
    (48 ≤ c.toNat ∧ c.toNat ≤ 57) ∨ c.toNat = 196 ∨ c.toNat = 214 ∨
    c.toNat = 220 ∨ c.toNat = 228 ∨ c.toNat = 246 ∨ c.toNat = 252 ∨
    c.toNat = 223

/-- Whitespace recognized by Python `str.split()` / `str.strip()`
(restricted to the ASCII whitespace occurring in the corpus):
space, tab, newline, carriage return, vertical tab, form feed. -/
def pyIsSpace (c : Char) : Bool :=
  c.toNat = 32 ∨ c.toNat = 9 ∨ c.toNat = 10 ∨ c.toNat = 13 ∨
    c.toNat = 11 ∨ c.toNat = 12

/-- Model of Python `ch.isalnum() or ch in "äöüß"` (workflow_context.py
line 40, repeat_reconstruction.py line 29) over the modelled alphabet:
the same character class as `_TOKEN_RE`. -/
def pyIsAlnumDE (c : Char) : Bool :=
  isTokenChar c

/-- An uppercase letter of the modelled alphabet: A-Z, Ä, Ö, Ü. -/
def isUpperDE (c : Char) : Bool :=
  (65 ≤ c.toNat ∧ c.toNat ≤ 90) ∨ c.toNat = 196 ∨ c.toNat = 214 ∨
    c.toNat = 220

/-- Single pass of run splitting: `acc` is the reversed current run. -/
def runsByAux (p : Char → Bool) : List Char → List Char → List (List Char)
  | [], acc => if acc.isEmpty then [] else [acc.reverse]
  | c :: cs, acc =>
    if p c then runsByAux p cs (c :: acc)
    else if acc.isEmpty then runsByAux p cs []
    else acc.reverse :: runsByAux p cs []

/-- Maximal runs of characters satisfying `p`; the list is split at every
character violating `p` and empty pieces are discarded.  This is the shape
of both `re.finditer` over a character class and Python `str.split()`. -/
def runsBy (p : Char → Bool) (s : List Char) : List (List Char) :=
  runsByAux p s []

/-- `_tokenize_list` (knowledge_base.py lines 157-158): lowercased maximal
`_TOKEN_RE` matches, i.e. maximal token-class runs of length at least 2,
in text order. -/
def tokenize_list (s : List Char) : List String :=
  (runsBy isTokenChar s).filterMap fun r =>
    if 2 ≤ r.length then some (String.mk (r.map pyLower)) else none

/-- `_tokenize` (knowledge_base.py lines 153-154): the set of tokens. -/
def kb_tokenize (s : List Char) : Finset String :=
  (tokenize_list s).toFinset

/-- Python `text.split()`: maximal runs of non-whitespace characters. -/
def splitWs (s : List Char) : List (List Char) :=
  runsBy (fun c => ¬ pyIsSpace c) s

/-- Python `text.strip()`: drop leading and trailing whitespace. -/
def pyStrip (s : List Char) : List Char :=
  ((s.dropWhile pyIsSpace).reverse.dropWhile pyIsSpace).reverse

/-- `STOPWORDS_DE` (workflow_context.py lines 11-14). -/
def STOPWORDS_DE : List String :=
  ["aber", "alle", "als", "also", "am", "an", "auch", "auf", "aus", "bei",
   "der", "die", "das", "dem", "den", "ein", "eine", "einer", "einem",
   "einen", "für", "im", "in", "ist", "mit", "nicht", "oder", "und",
   "von", "zu"]

/-- `TEMPLATE_TOKENS` (workflow_context.py lines 16-18). -/
def TEMPLATE_TOKENS : List String :=
  ["was", "welche", "welcher", "welches", "aussage", "stimmt", "trifft",
   "ehesten", "richtig", "falsch", "liegt", "vor"]

/-- Core of `workflow_context._tokenize` and
`repeat_reconstruction._tokenize`: lowercase the text, replace newlines by
spaces, split on whitespace, strip every word to its alphanumeric
characters, and keep the result when it has at least `minLen` characters
and passes `keep`. -/
def splitTokenizeWith (minLen : ℕ) (keep : String → Bool) (s : List Char) :
    Finset String :=
  ((splitWs ((s.map pyLower).map fun c => if c = '\n' then ' ' else c)).filterMap
    fun raw =>
      let tok := raw.filter pyIsAlnumDE
      if minLen ≤ tok.length ∧ keep (String.mk tok) then
        some (String.mk tok)
      else none).toFinset

/-- `workflow_context._tokenize` (lines 37-46): tokens of length ≥ 3 that
are neither stopwords nor template tokens. -/
def wc_tokenize (s : List Char) : Finset String :=
  splitTokenizeWith 3
    (fun t => ¬ (t ∈ STOPWORDS_DE ∨ t ∈ TEMPLATE_TOKENS)) s

/-- `repeat_reconstruction` inner string tokenizer (lines 27-32): tokens of
length ≥ 3, no stopword filtering. -/
def rr_tokenize_text (s : List Char) : Finset String :=
  splitTokenizeWith 3 (fun _ => true) s

/-! ## Decision policy (decision_policy.py). -/

/-- `should_apply_pass_b_change` (decision_policy.py lines 29-50),
confidences and retrieval quality as rationals (every float is one). -/
def should_apply_pass_b_change
    (current_indices verified_indices : List ℤ)
    (cannot_judge agree_with_change : Bool)
    (confidence_b apply_min_conf_b retrieval_quality : ℚ)
    (evidence_count : ℤ) : Bool :=
  if cannot_judge then false
  else if ¬ agree_with_change then false
  else if verified_indices = [] ∨ verified_indices = current_indices then false
  else if confidence_b < apply_min_conf_b then false
  else if evidence_count ≤ 0 ∧ retrieval_quality < 8 / 100 then false
  else true

/-! ## Token pruning (workflow_context.py lines 49-64). -/

/-- Document frequency of a token across the token sets. -/
def docFrequency (items : List (Finset String)) (t : String) : ℕ :=
  (items.filter fun s => t ∈ s).length

/-- `_prune_frequent_tokens` (workflow_context.py lines 49-64): when at
least 5 sets are given, drop every token whose document frequency exceeds
`max 2 ⌊n * ratio⌋`; otherwise return the sets unchanged.  Returns the
pruned sets together with the document-frequency map (here: function). -/
def prune_frequent_tokens (items : List (Finset String))
    (max_doc_frequency_ratio : ℚ) :
    List (Finset String) × (String → ℕ) :=
  if items = [] then (items, fun _ => 0)
  else
    let n := items.length
    let df := docFrequency items
    if n < 5 then (items, df)
    else
      let maxDf : ℤ := max 2 ⌊(n : ℚ) * max_doc_frequency_ratio⌋
      (items.map fun toks => toks.filter fun t => (df t : ℤ) ≤ maxDf, df)

/-! ## Hamming distance over hex hash strings
(knowledge_base.py lines 457-461, image_store.py lines 203-208). -/

/-- Number of set bits of a natural number (Python `int.bit_count`). -/
def popCount : ℕ → ℕ
  | 0 => 0
  | n + 1 => (n + 1) % 2 + popCount ((n + 1) / 2)
decreasing_by exact Nat.div_lt_self (Nat.succ_pos n) (by norm_num)

/-- Value of one hex digit, if the character is one. -/
def hexDigit (c : Char) : Option ℕ :=
  if '0' ≤ c ∧ c ≤ '9' then some (c.toNat - '0'.toNat)
  else if 'a' ≤ c ∧ c ≤ 'f' then some (c.toNat - 'a'.toNat + 10)
  else if 'A' ≤ c ∧ c ≤ 'F' then some (c.toNat - 'A'.toNat + 10)
  else none

/-- Model of Python `int(s, 16)` restricted to unsigned digit strings:
succeeds exactly on nonempty strings of hex digits.  (Python additionally
tolerates sign, whitespace, underscores and an `0x` marker; hash strings
contain none of those.) -/
def parseHex (s : List Char) : Option ℕ :=
  if s = [] then none
  else s.foldl (fun acc c => acc.bind fun a => (hexDigit c).map (16 * a + ·))
    (some 0)

/-- `_hamming_distance_hex` (knowledge_base.py lines 457-461): popcount of
the xor of the two values, or the sentinel 64 when either string fails to
decode. -/
def hamming_distance_hex (a b : List Char) : ℕ :=
  match parseHex a, parseHex b with
  | some x, some y => popCount (x ^^^ y)
  | _, _ => 64

/-! ## Repeat reconstruction (repeat_reconstruction.py).

Questions are the structured view of the JSON dictionaries the source
reads: a missing key is an `Option.none`, `dict.get(k) or default`
becomes `Option.getD`. -/

/-- Shape of `aiAudit.maintenance`. -/
structure Maintenance where
  needsMaintenance : Bool
deriving DecidableEq, Repr

/-- Shape of `aiAudit.answerPlausibility`. -/
structure Plausibility where
  finalCombinedConfidence : Option ℚ
deriving DecidableEq, Repr

/-- Shape of the prior-audit record `aiAudit`. -/
structure Audit where
  status : Option String
  maintenance : Option Maintenance
  answerPlausibility : Option Plausibility
deriving DecidableEq, Repr

/-- One answer option of a question. -/
structure Answer where
  text : List Char
  answerIndex : Option ℤ
  position : Option ℤ
  index : Option ℤ
  isCorrect : Bool
deriving DecidableEq, Repr

/-- One entry of a question's `correctAnswers` list. -/
structure CorrectAnswer where
  text : List Char
deriving DecidableEq, Repr

/-- The question dictionaries consumed by `compute_repeat_reconstruction`. -/
structure Question where
  id : String
  questionText : List Char
  explanationText : List Char
  answers : List Answer
  correctAnswers : List CorrectAnswer
  correctIndices : List ℤ
  examYear : Option ℤ
  aiAudit : Option Audit
deriving DecidableEq, Repr

instance : Inhabited Question :=
  ⟨⟨"", [], [], [], [], [], none, none⟩⟩

/-- `RepeatSuggestion` (repeat_reconstruction.py lines 10-16). -/
structure RepeatSuggestion where
  cluster_id : ℕ
  anchor_question_id : String
  confidence : ℚ
  suggested_correct_indices : List ℤ
  matched_correct_texts : List (List String)
deriving DecidableEq, Repr

/-- `_norm_text` (line 19-20): lowercase, split on whitespace, join with
single spaces.  Joining nonempty words with a single separator is
injective, so the word list itself is the normal form. -/
def norm_text (s : List Char) : List String :=
  (splitWs (s.map pyLower)).map String.mk

/-- `_tokenize` on a question (lines 23-32): tokens of question text,
explanation and all answer texts. -/
def rr_tokenize (q : Question) : Finset String :=
  rr_tokenize_text
    ((q.questionText ++ ('\n' :: q.explanationText)) ++
      q.answers.foldr (fun a acc => '\n' :: a.text ++ acc) [])

/-- Union-find state, represented by the root of every index.  The
source's `_UnionFind` keeps a parent forest with path compression;
compression never changes any root, and `union(a, b)` reroots the class
of `b` onto the root of `a`, so tracking roots directly gives the same
`find` results. -/
abbrev UF := List ℕ

/-- `find` of the source's union-find. -/
def ufFind (uf : UF) (x : ℕ) : ℕ :=
  List.getD uf x x

/-- `union` of the source's union-find: the class of `b` is rerooted onto
the root of `a` (when different). -/
def ufUnion (uf : UF) (a bb : ℕ) : UF :=
  let ra := ufFind uf a
  let rb := ufFind uf bb
  if ra = rb then uf else uf.map fun r => if r = rb then ra else r

/-- `_candidate_pairs` (lines 51-64): the set of index pairs `i < j`
whose token sets share at least one token, enumerated here in
lexicographic order.  The source iterates this set in Python's
(hash-determined) set order, but the union-find partition produced by
the loop below does not depend on the iteration order. -/
def candidate_pairs (items : List (Finset String)) : List (ℕ × ℕ) :=
  (List.range items.length).flatMap fun i =>
    ((List.range items.length).filter fun j =>
        i < j ∧ (items.getD i ∅ ∩ items.getD j ∅).Nonempty).map
      fun j => (i, j)

/-- `_similarity` (lines 67-70): plain Jaccard similarity. -/
def rr_similarity (a bb : Finset String) : ℚ :=
  if a = ∅ ∨ bb = ∅ then 0
  else (a ∩ bb).card / (max 1 (a ∪ bb).card : ℚ)

/-- `_question_year` (lines 73-75) yields `str(y)` or `""`; on the typed
view the year is present exactly when the field is `some`. -/
def question_year (q : Question) : Option ℤ :=
  q.examYear

/-- `_question_conf` (lines 78-80): the prior audit's
`answerPlausibility.finalCombinedConfidence`, defaulting to 0 when the
audit, the plausibility record or the value is missing (Python's
`or 0.0` also maps a stored 0.0 to 0.0, which coincides). -/
def question_conf (q : Question) : ℚ :=
  ((q.aiAudit.bind Audit.answerPlausibility).bind
    Plausibility.finalCombinedConfidence).getD 0

/-- `bool(maintenance.get("needsMaintenance"))` with the audit and the
maintenance record defaulting to empty dictionaries. -/
def needs_maintenance (q : Question) : Bool :=
  ((q.aiAudit.bind Audit.maintenance).map Maintenance.needsMaintenance).getD
    false

/-- `_is_high_quality_anchor` (lines 83-94). -/
def is_high_quality_anchor (q : Question) (min_conf : ℚ) : Bool :=
  if (q.aiAudit.bind Audit.status) ≠ some ("completed") then false
  else if needs_maintenance q then false
  else if question_conf q < min_conf then false
  else if q.correctIndices = [] then false
  else true

/-- The target-side low-quality test of `compute_repeat_reconstruction`
(line 190): maintenance-flagged or prior confidence below the anchor
threshold. -/
def target_low_quality (q : Question) (min_anchor_conf : ℚ) : Bool :=
  needs_maintenance q || question_conf q < min_anchor_conf

/-- `_anchor_correct_texts` (lines 97-110): normalized nonempty texts of
`correctAnswers`, else normalized nonempty texts of answers flagged
`isCorrect`. -/
def anchor_correct_texts (q : Question) : List (List String) :=
  let byCorrect :=
    if q.correctAnswers ≠ [] then
      (q.correctAnswers.map fun x => norm_text x.text).filter (· ≠ [])
    else []
  if byCorrect ≠ [] then byCorrect
  else
    (q.answers.filterMap fun a =>
      if a.isCorrect then
        let t := norm_text a.text
        if t ≠ [] then some t else none
      else none)

/-- `_derive_external_indices` (lines 113-123): per answer, the first of
`answerIndex`, `position`, `index` that is a positive integer, else the
1-based position. -/
def derive_external_indices (q : Question) : List ℤ :=
  (q.answers.enum).map fun ai =>
    match (ai.2.answerIndex :: ai.2.position :: [ai.2.index]).findSome?
        (fun v => v.bind fun w => if 0 < w then some w else none) with
    | some v => v
    | none => (ai.1 : ℤ) + 1

/-- `_map_anchor_texts_to_target_indices` (lines 126-136): external
indices of target answers whose normalized text matches one of the
anchor's correct texts, as a sorted duplicate-free list. -/
def map_anchor_texts_to_target_indices (target : Question)
    (anchorTexts : List (List String)) : List ℤ :=
  if anchorTexts = [] then []
  else
    let indices := derive_external_indices target
    let out := (target.answers.enum).filterMap fun ai =>
      let t := norm_text ai.2.text
      if t ≠ [] ∧ t ∈ anchorTexts ∧ ai.1 < indices.length then
        some (indices.getD ai.1 0)
      else none
    out.toFinset.sort (· ≤ ·)

/-- First-occurrence deduplication (insertion order of a Python dict's
keys). -/
def firstDedup (l : List ℕ) : List ℕ :=
  l.foldl (fun acc a => if a ∈ acc then acc else acc ++ [a]) []

/-- The union-find state after processing all accepted candidate pairs
(lines 147-150). -/
def rrUnionFindState (questions : List Question) (min_similarity : ℚ) : UF :=
  let toks := questions.map rr_tokenize
  (candidate_pairs toks).foldl
    (fun uf ij =>
      if min_similarity ≤ rr_similarity (toks.getD ij.1 ∅) (toks.getD ij.2 ∅)
      then ufUnion uf ij.1 ij.2 else uf)
    (List.range questions.length)

/-- The clusters (lines 152-154): member lists grouped by root, in order
of first appearance of each root, each member list ascending. -/
def rrClusters (questions : List Question) (min_similarity : ℚ) :
    List (List ℕ) :=
  let uf := rrUnionFindState questions min_similarity
  let n := questions.length
  (firstDedup ((List.range n).map (ufFind uf))).map fun r =>
    (List.range n).filter fun i => ufFind uf i = r

/-- The distinct exam years present in a cluster (line 165). -/
def clusterYears (questions : List Question) (members : List ℕ) :
    Finset ℤ :=
  (members.filterMap fun i => question_year (questions.getD i default)).toFinset

/-- The high-quality anchor candidates of a cluster (line 170). -/
def clusterAnchors (questions : List Question) (min_anchor_conf : ℚ)
    (members : List ℕ) : List ℕ :=
  members.filter fun i =>
    is_high_quality_anchor (questions.getD i default) min_anchor_conf

/-- The chosen anchor (lines 174-175): stable sort by descending
confidence, then the head.  (The head default is never used: the caller
checks the anchor list is nonempty.) -/
def bestAnchor (questions : List Question) (min_anchor_conf : ℚ)
    (members : List ℕ) : ℕ :=
  ((clusterAnchors questions min_anchor_conf members).insertionSort
    fun a bb =>
      question_conf (questions.getD bb default) ≤
        question_conf (questions.getD a default)).headD 0

/-- The suggestion one cluster member contributes (lines 181-204 loop
body): skipped when it is the anchor, has an empty id, is not
low-quality, or the text match is empty. -/
def memberSuggestion (questions : List Question) (min_anchor_conf : ℚ)
    (clusterIdx best m : ℕ) : Option (String × RepeatSuggestion) :=
  if m = best then none
  else
    let target := questions.getD m default
    if target.id = "" then none
    else if ¬ target_low_quality target min_anchor_conf then none
    else
      let anchorQ := questions.getD best default
      let suggested :=
        map_anchor_texts_to_target_indices target (anchor_correct_texts anchorQ)
      if suggested = [] then none
      else some (target.id,
        { cluster_id := clusterIdx
          anchor_question_id := anchorQ.id
          confidence := question_conf anchorQ
          suggested_correct_indices := suggested
          matched_correct_texts := anchor_correct_texts anchorQ })

/-- The suggestions a single qualifying cluster contributes
(lines 160-204 loop body). -/
def clusterSuggestions (questions : List Question) (min_anchor_conf : ℚ)
    (clusterIdx : ℕ) (members : List ℕ) :
    List (String × RepeatSuggestion) :=
  if members.length ≤ 1 then []
  else if (clusterYears questions members).card < 2 then []
  else if clusterAnchors questions min_anchor_conf members = [] then []
  else
    members.filterMap
      (memberSuggestion questions min_anchor_conf clusterIdx
        (bestAnchor questions min_anchor_conf members))

/-- `compute_repeat_reconstruction` (lines 139-211): the emitted
`(questionId, suggestion)` bindings in emission order.  The source stores
them in a dict (later bindings for the same id overwrite earlier ones);
every dict entry is one of these bindings. -/
def compute_repeat_reconstruction (questions : List Question)
    (min_similarity min_anchor_conf : ℚ) :
    List (String × RepeatSuggestion) :=
  ((rrClusters questions min_similarity).enumFrom 1).flatMap fun ci =>
    clusterSuggestions questions min_anchor_conf ci.1 ci.2

/-! ## Knowledge base and evidence retrieval (knowledge_base.py).

Float arithmetic is idealized over ℝ; every value a float can take is a
rational, hence a real, and the selection logic only compares values. -/

/-- `Chunk` (knowledge_base.py lines 18-26).  `termFreq` models the
Python dict via `dict.get(term, 0)`. -/
structure Chunk where
  chunk_id : String
  source : String
  page : ℤ
  text : List Char
  tokens : Finset String
  termFreq : String → ℤ
  length : ℤ

instance : Inhabited Chunk := ⟨⟨"", "", 0, [], ∅, fun _ => 0, 0⟩⟩

/-- `KnowledgeImage` (lines 29-34). -/
structure KnowledgeImage where
  image_id : String
  source : String
  page : ℤ
  perceptual_hash : String

/-- `KnowledgeBase` (lines 37-46); the derived statistics of `__init__`
are recomputed from the chunk list. -/
structure KnowledgeBase where
  chunks : List Chunk
  images : List KnowledgeImage

/-- `self._doc_count = max(1, len(chunks))`. -/
def docCount (kb : KnowledgeBase) : ℕ :=
  max 1 kb.chunks.length

/-- `self._avg_len = sum(c.length for c in chunks) / max(1, len(chunks))`. -/
noncomputable def avg_len (kb : KnowledgeBase) : ℝ :=
  (kb.chunks.map fun c => (c.length : ℝ)).sum / (docCount kb : ℝ)

/-- `self._doc_freq[t]`: the number of chunks whose token set holds `t`. -/
def doc_freq (kb : KnowledgeBase) (t : String) : ℕ :=
  (kb.chunks.filter fun c => t ∈ c.tokens).length

/-- The BM25 idf of lines 75-76. -/
noncomputable def idf (kb : KnowledgeBase) (t : String) : ℝ :=
  Real.log
    (((docCount kb : ℝ) - (doc_freq kb t : ℝ) + 0.5) /
        ((doc_freq kb t : ℝ) + 0.5) + 1)

/-- The BM25 score of one chunk against the unique query terms
(lines 64-78), with `k1 = 1.4` and `b = 0.72` inlined as in the source;
terms with nonpositive stored frequency are skipped. -/
noncomputable def bm25Score (kb : KnowledgeBase) (qUnique : Finset String)
    (c : Chunk) : ℝ :=
  ∑ t ∈ (qUnique ∩ c.tokens).filter (fun t => 0 < c.termFreq t),
    idf kb t *
      (((c.termFreq t : ℝ) * (1.4 + 1)) /
        max 1e-6
          ((c.termFreq t : ℝ) +
            1.4 * (1 - 0.72 + 0.72 * (c.length : ℝ) / max 1e-6 (avg_len kb))))

/-- `snippet[:remaining].rsplit(" ", 1)[0]` for the truncation of
line 114: everything before the last space of the slice, or the whole
slice when it contains no space. -/
def rsplitBeforeLastSpace (s : List Char) : List Char :=
  let r := s.reverse.dropWhile fun c => c ≠ ' '
  if r = [] then s else (r.drop 1).reverse

/-- The word-boundary truncation with ellipsis marker of line 114. -/
def truncateSnippet (s : List Char) (m : ℕ) : List Char :=
  rsplitBeforeLastSpace (s.take m) ++ [' ', '…']

/-- One selected evidence row (lines 115-123); `score` is the rounded
score stored in the row. -/
structure Evidence where
  chunkId : String
  source : String
  page : ℤ
  score : ℝ
  text : List Char

/-- The mutable state of the greedy selection loop (lines 87-90):
selected rows, characters used, accumulated unrounded score, and the
set of sources already selected. -/
structure SelState where
  selected : List Evidence
  used : ℕ
  total : ℝ
  sources : Finset String

/-- Python `round` is round-half-to-even; on a real value this agrees
with Mathlib's `round` except at exact halves, where the nearer even
integer is taken. -/
noncomputable def pyRoundHalfEven (x : ℝ) : ℤ :=
  if Int.fract x = 1 / 2 then 2 * round (x / 2) else round x

/-- Python `round(x, 4)`. -/
noncomputable def pyRound4 (x : ℝ) : ℝ :=
  (pyRoundHalfEven (x * 10 ^ 4) : ℝ) / 10 ^ 4

/-- `value = score + diversity_bonus` (lines 98-99). -/
noncomputable def selValue (sources : Finset String) (p : ℝ × Chunk) : ℝ :=
  p.1 + (if p.2.source ∉ sources then 0.12 else 0)

/-- The argmax scan of lines 95-102: running best value (started at
`-1e9`) and best index (started at 0), updated on strict improvement. -/
noncomputable def bestAux (sources : Finset String) :
    List (ℝ × Chunk) → ℕ → ℝ → ℕ → ℝ × ℕ
  | [], _, bv, bi => (bv, bi)
  | p :: rest, i, bv, bi =>
    if bv < selValue sources p then
      bestAux sources rest (i + 1) (selValue sources p) i
    else bestAux sources rest (i + 1) bv bi

/-- `best_idx` after the scan of lines 95-102. -/
noncomputable def bestIdx (sources : Finset String)
    (cs : List (ℝ × Chunk)) : ℕ :=
  (bestAux sources cs 0 (-(10 ^ 9)) 0).2

/-- The returned best index either stays at its start value or points at
a scanned position. -/
theorem bestAux_snd (sources : Finset String) :
    ∀ (cs : List (ℝ × Chunk)) (i : ℕ) (bv : ℝ) (bi : ℕ),
      (bestAux sources cs i bv bi).2 = bi ∨
        ∃ k, k < cs.length ∧ (bestAux sources cs i bv bi).2 = i + k := by
  intro cs
  induction cs with
  | nil => intro i bv bi; left; rfl
  | cons p rest ih =>
    intro i bv bi
    rw [bestAux]
    by_cases h : bv < selValue sources p
    · rw [if_pos h]
      rcases ih (i + 1) (selValue sources p) i with h' | ⟨k, hk, h'⟩
      · right; exact ⟨0, by simp, by simpa using h'⟩
      · right
        exact ⟨k + 1, by simpa using hk, by omega⟩
    · rw [if_neg h]
      rcases ih (i + 1) bv bi with h' | ⟨k, hk, h'⟩
      · left; exact h'
      · right; exact ⟨k + 1, by simpa using hk, by omega⟩

/-- On a nonempty candidate list the chosen index is in range. -/
theorem bestIdx_lt (sources : Finset String) (cs : List (ℝ × Chunk))
    (h : cs ≠ []) : bestIdx sources cs < cs.length := by
  rcases bestAux_snd sources cs 0 (-(10 ^ 9)) 0 with h' | ⟨k, hk, h'⟩
  · rw [bestIdx, h']
    cases cs with
    | nil => exact absurd rfl h
    | cons a l => simp
  · rw [bestIdx, h']
    simpa using hk

/-- `st` advanced by selecting candidate `p` with snippet text `snippet`
(lines 115-126). -/
noncomputable def pushState (st : SelState) (p : ℝ × Chunk)
    (snippet : List Char) : SelState :=
  { selected := st.selected ++
      [{ chunkId := p.2.chunk_id
         source := p.2.source
         page := p.2.page
         score := pyRound4 p.1
         text := snippet }]
    used := st.used + snippet.length
    total := st.total + p.1
    sources := insert p.2.source st.sources }

/-- The diversity-aware greedy selection loop (lines 94-126): while
candidates remain and fewer than `topK` rows are selected, pop the
best-valued candidate; skip it when its stripped text is empty; stop
when the budget is exhausted; take it whole when it fits, otherwise
word-boundary-truncate it when at least 220 characters remain, else
stop. -/
noncomputable def selectLoop (topK maxChars : ℕ) :
    List (ℝ × Chunk) → SelState → SelState
  | [], st => st
  | c :: cs, st =>
    if topK ≤ st.selected.length then st
    else
      let bi := bestIdx st.sources (c :: cs)
      let p := (c :: cs).getD bi (0, default)
      let rest := (c :: cs).eraseIdx bi
      let snippet := pyStrip p.2.text
      if snippet = [] then selectLoop topK maxChars rest st
      else if (maxChars : ℤ) - (st.used : ℤ) ≤ 0 then st
      else if (snippet.length : ℤ) ≤ (maxChars : ℤ) - (st.used : ℤ) then
        selectLoop topK maxChars rest (pushState st p snippet)
      else if (maxChars : ℤ) - (st.used : ℤ) < 220 then st
      else
        selectLoop topK maxChars rest
          (pushState st p
            (truncateSnippet snippet ((maxChars : ℤ) - (st.used : ℤ)).toNat))
termination_by cs => cs.length
decreasing_by
  all_goals
    show ((c :: cs).eraseIdx (bestIdx st.sources (c :: cs))).length <
      (c :: cs).length
    rw [List.length_eraseIdx_of_lt (bestIdx_lt st.sources (c :: cs) (by simp))]
    simp

/-- The chunks passing the scoring phase of `retrieve` (lines 56-83):
empty when the query has no tokens, otherwise every chunk sharing a
token with the query whose BM25 score reaches `minScore`, with its
score, in corpus order. -/
noncomputable def scoredList (kb : KnowledgeBase) (queryText : List Char)
    (minScore : ℝ) : List (ℝ × Chunk) :=
  if tokenize_list queryText = [] then []
  else
    let qU := (tokenize_list queryText).toFinset
    kb.chunks.filterMap fun c =>
      if (qU ∩ c.tokens).Nonempty then
        if minScore ≤ bm25Score kb qU c then some (bm25Score kb qU c, c)
        else none
      else none

/-- The final selection state of `retrieve` (lines 85-126): the scored
chunks are stably sorted by descending score, the top `max 1 (topK * 6)`
are kept as candidates, and the greedy loop runs from the empty state. -/
noncomputable def retrieveState (kb : KnowledgeBase) (queryText : List Char)
    (topK : ℕ) (minScore : ℝ) (maxChars : ℕ) : SelState :=
  selectLoop topK maxChars
    ((((scoredList kb queryText minScore).insertionSort
        fun a bb => bb.1 ≤ a.1)).take (max 1 (topK * 6)))
    ⟨[], 0, 0, ∅⟩

/-- `KnowledgeBase.retrieve` (lines 48-133): the selected evidence rows
and the retrieval quality `round(1 - exp(-0.35 * mean), 4)`, or
`([], 0)` when nothing scores or nothing is selected. -/
noncomputable def retrieve (kb : KnowledgeBase) (queryText : List Char)
    (topK : ℕ) (minScore : ℝ) (maxChars : ℕ) : List Evidence × ℝ :=
  if (scoredList kb queryText minScore).isEmpty then ([], 0)
  else
    let st := retrieveState kb queryText topK minScore maxChars
    if st.selected.isEmpty then ([], 0)
    else
      (st.selected,
        pyRound4 (1 - Real.exp (-(0.35) * (st.total / (st.selected.length : ℝ)))))

/-! ## Construction paths (knowledge_base.py lines 261-428).

File and ZIP reading is I/O; the embedding starts from the already
extracted data: the chunk list a ZIP yielded, and the parsed JSON rows
of a saved index. -/

/-- `build_knowledge_base_from_zip` after extraction (lines 339-369):
zero usable chunks is fatal, otherwise the knowledge base is built. -/
def build_knowledge_base_from_chunks (chunks : List Chunk)
    (images : List KnowledgeImage) : Except String KnowledgeBase :=
  if chunks.isEmpty then
    Except.error
      "No extractable knowledge chunks found in ZIP (supported: PDF/TXT/MD)."
  else Except.ok ⟨chunks, images⟩

/-- One parsed chunk row of a saved index (lines 405-418): `chunkId` is
required (a missing key raises before any knowledge base is built), the
remaining fields carry the defaults of the source. -/
structure ChunkRow where
  chunkId : String
  source : Option String
  page : Option ℤ
  text : List Char
  tokens : Option (List String)
  termFreq : Option (List (String × ℤ))
  length : Option ℤ

/-- One parsed image row of a saved index (lines 419-427). -/
structure ImageRow where
  imageId : Option String
  source : Option String
  page : Option ℤ
  perceptualHash : Option String

/-- A parsed index file. -/
structure IndexPayload where
  chunks : List ChunkRow
  images : List ImageRow

/-- `_term_freq` (lines 161-162) as a lookup function. -/
def term_freq_of_text (text : List Char) : String → ℤ :=
  fun t => ((tokenize_list text).count t : ℤ)

/-- `load_index_json` after JSON parsing (lines 400-428): every row
becomes a chunk, missing fields fall back exactly as in the source
(`or` treats an absent or empty value alike), and no emptiness check is
performed — a payload with zero chunks yields a knowledge base. -/
def load_index_data (payload : IndexPayload) : KnowledgeBase :=
  { chunks := payload.chunks.map fun row =>
      let text := row.text
      let tf : String → ℤ :=
        match row.termFreq with
        | some l => if l = [] then term_freq_of_text text
                    else fun t => (l.lookup t).getD 0
        | none => term_freq_of_text text
      let tfValuesSum : ℤ :=
        match row.termFreq with
        | some l => if l = [] then ((tokenize_list text).length : ℤ)
                    else (l.map Prod.snd).sum
        | none => ((tokenize_list text).length : ℤ)
      { chunk_id := row.chunkId
        source := row.source.getD ("unknown")
        page := row.page.getD 0
        text := text
        tokens :=
          match row.tokens with
          | some l => if l = [] then kb_tokenize text else l.toFinset
          | none => kb_tokenize text
        termFreq := tf
        length :=
          match row.length with
          | some v => if v = 0 then max 1 tfValuesSum else v
          | none => max 1 tfValuesSum }
    images := payload.images.map fun row =>
      { image_id := row.imageId.getD ("")
        source := row.source.getD ("unknown")
        page := row.page.getD 0
        perceptual_hash :=
          row.perceptualHash.getD (String.mk (List.replicate 16 '0')) } }

/-! ## General helper lemmas. -/

theorem toNat_ofNat_small {n : ℕ} (h : n < 0xD800) :
    (Char.ofNat n).toNat = n := by
  have hv : Nat.isValidChar n := Or.inl h
  rw [Char.ofNat, dif_pos hv]
  rfl

theorem char_le_iff_toNat {a bb : Char} : a ≤ bb ↔ a.toNat ≤ bb.toNat := by
  rw [Char.le_def, UInt32.le_def, BitVec.le_def]
  rfl

theorem char_eq_iff_toNat {a bb : Char} : a = bb ↔ a.toNat = bb.toNat := by
  constructor
  · rintro rfl; rfl
  · intro h
    exact Char.ext (UInt32.toNat.inj h)

/-- Code point of the lowercased character. -/
theorem pyLower_toNat (c : Char) :
    (pyLower c).toNat =
      if 65 ≤ c.toNat ∧ c.toNat ≤ 90 then c.toNat + 32
      else if c.toNat = 196 then 228
      else if c.toNat = 214 then 246
      else if c.toNat = 220 then 252
      else c.toNat := by
  unfold pyLower
  split_ifs with h1 h2 h3 h4
  · exact toNat_ofNat_small (by omega)
  · rfl
  · rfl
  · rfl
  · rfl

/-- Lowercasing a token-class character yields an alphanumeric,
non-uppercase character. -/
theorem pyLower_tokenChar {c : Char} (h : isTokenChar c = true) :
    pyIsAlnumDE (pyLower c) = true ∧ isUpperDE (pyLower c) = false := by
  simp only [isTokenChar, decide_eq_true_eq] at h
  constructor
  · simp only [pyIsAlnumDE, isTokenChar, decide_eq_true_eq, pyLower_toNat]
    split_ifs <;> omega
  · simp only [isUpperDE, decide_eq_false_iff_not, pyLower_toNat]
    split_ifs <;> omega

/-- Lowercasing never produces an uppercase character of the modelled
alphabet. -/
theorem pyLower_not_upper (c : Char) : isUpperDE (pyLower c) = false := by
  simp only [isUpperDE, decide_eq_false_iff_not, pyLower_toNat]
  split_ifs <;> omega

/-- Every run produced by `runsByAux p` is nonempty, consists of
characters satisfying `p`, and draws its characters from the input or the
pending accumulator. -/
theorem runsByAux_mem (p : Char → Bool) :
    ∀ (s acc : List Char), (∀ c ∈ acc, p c = true) →
      ∀ r ∈ runsByAux p s acc,
        r ≠ [] ∧ (∀ c ∈ r, p c = true) ∧ ∀ c ∈ r, c ∈ s ∨ c ∈ acc := by
  intro s
  induction s with
  | nil =>
    intro acc hacc r hr
    rw [runsByAux] at hr
    by_cases ha : acc.isEmpty
    · rw [if_pos ha] at hr; simp at hr
    · rw [if_neg ha] at hr
      rcases List.mem_singleton.mp hr with rfl
      refine ⟨?_, ?_, ?_⟩
      · simp only [ne_eq, List.reverse_eq_nil_iff]
        intro h; rw [h] at ha; exact ha rfl
      · intro c hc; exact hacc c (List.mem_reverse.mp hc)
      · intro c hc; exact Or.inr (List.mem_reverse.mp hc)
  | cons c cs ih =>
    intro acc hacc r hr
    rw [runsByAux] at hr
    by_cases hp : p c
    · rw [if_pos hp] at hr
      obtain ⟨h1, h2, h3⟩ := ih (c :: acc)
        (fun x hx => by
          rcases List.mem_cons.mp hx with rfl | hx
          · exact hp
          · exact hacc x hx) r hr
      refine ⟨h1, h2, fun x hx => ?_⟩
      rcases h3 x hx with h | h
      · exact Or.inl (List.mem_cons_of_mem c h)
      · rcases List.mem_cons.mp h with rfl | h
        · exact Or.inl (List.mem_cons_self _ _)
        · exact Or.inr h
    · rw [if_neg hp] at hr
      by_cases ha : acc.isEmpty
      · rw [if_pos ha] at hr
        obtain ⟨h1, h2, h3⟩ := ih [] (by simp) r hr
        refine ⟨h1, h2, fun x hx => ?_⟩
        rcases h3 x hx with h | h
        · exact Or.inl (List.mem_cons_of_mem c h)
        · simp at h
      · rw [if_neg ha] at hr
        rcases List.mem_cons.mp hr with rfl | hr
        · refine ⟨?_, ?_, ?_⟩
          · simp only [ne_eq, List.reverse_eq_nil_iff]
            intro h; rw [h] at ha; exact ha rfl
          · intro x hx; exact hacc x (List.mem_reverse.mp hx)
          · intro x hx; exact Or.inr (List.mem_reverse.mp hx)
        · obtain ⟨h1, h2, h3⟩ := ih [] (by simp) r hr
          refine ⟨h1, h2, fun x hx => ?_⟩
          rcases h3 x hx with h | h
          · exact Or.inl (List.mem_cons_of_mem c h)
          · simp at h

/-- Every run produced by `runsBy p` is nonempty, consists of characters
satisfying `p`, and draws its characters from the input. -/
theorem runsBy_mem (p : Char → Bool) (s : List Char) :
    ∀ r ∈ runsBy p s,
      r ≠ [] ∧ (∀ c ∈ r, p c = true) ∧ ∀ c ∈ r, c ∈ s := by
  intro r hr
  obtain ⟨h1, h2, h3⟩ := runsByAux_mem p s [] (by simp) r hr
  refine ⟨h1, h2, fun x hx => ?_⟩
  rcases h3 x hx with h | h
  · exact h
  · simp at h

/-! ## Tokenizer soundness (claim C4). -/

/-- A lowercase alphanumeric token of length at least 2: what §3 of the
specification asserts of every `tokenSet` member. -/
def lowerAlnumToken (t : String) : Prop :=
  2 ≤ t.data.length ∧ ∀ c ∈ t.data, pyIsAlnumDE c = true ∧ isUpperDE c = false

instance (t : String) : Decidable (lowerAlnumToken t) := by
  unfold lowerAlnumToken
  infer_instance

theorem tokenize_list_sound (s : List Char) (t : String)
    (ht : t ∈ tokenize_list s) : lowerAlnumToken t := by
  unfold tokenize_list at ht
  rw [List.mem_filterMap] at ht
  obtain ⟨r, hr, hcond⟩ := ht
  obtain ⟨-, hcls, -⟩ := runsBy_mem isTokenChar s r hr
  by_cases h2 : 2 ≤ r.length
  · rw [if_pos h2] at hcond
    obtain rfl := Option.some.inj hcond
    have hdata : (String.mk (r.map pyLower)).data = r.map pyLower := rfl
    constructor
    · rw [hdata, List.length_map]; exact h2
    · intro c hc
      rw [hdata] at hc
      obtain ⟨c', hc', rfl⟩ := List.mem_map.mp hc
      exact pyLower_tokenChar (hcls c' hc')
  · rw [if_neg h2] at hcond
    cases hcond

theorem splitTokenizeWith_sound (minLen : ℕ) (keep : String → Bool)
    (s : List Char) (t : String) (ht : t ∈ splitTokenizeWith minLen keep s) :
    minLen ≤ t.data.length ∧
      ∀ c ∈ t.data, pyIsAlnumDE c = true ∧ isUpperDE c = false := by
  unfold splitTokenizeWith at ht
  rw [List.mem_toFinset, List.mem_filterMap] at ht
  obtain ⟨raw, hraw, hcond⟩ := ht
  by_cases hc :
      minLen ≤ (raw.filter pyIsAlnumDE).length ∧
        keep (String.mk (raw.filter pyIsAlnumDE)) = true
  · rw [if_pos hc] at hcond
    obtain rfl := Option.some.inj hcond
    have hdata : (String.mk (raw.filter pyIsAlnumDE)).data =
        raw.filter pyIsAlnumDE := rfl
    obtain ⟨-, -, hsrc⟩ := runsBy_mem _ _ raw hraw
    constructor
    · rw [hdata]; exact hc.1
    · intro c hcm
      rw [hdata] at hcm
      have halnum := List.of_mem_filter hcm
      refine ⟨halnum, ?_⟩
      have hmem := hsrc c (List.mem_of_mem_filter hcm)
      obtain ⟨c1, hc1, rfl⟩ := List.mem_map.mp hmem
      obtain ⟨c0, hc0, rfl⟩ := List.mem_map.mp hc1
      by_cases hnl : pyLower c0 = '\n'
      · rw [if_pos hnl] at halnum ⊢
        exact absurd halnum (by decide)
      · rw [if_neg hnl]
        exact pyLower_not_upper c0
  · rw [if_neg hc] at hcond
    cases hcond

/-- Claim C4: every token produced by the `_TOKEN_RE` tokenizer of the
retrieval index, by the clustering tokenizer of `workflow_context`, and
by the repeat-detection tokenizer of `repeat_reconstruction` is a
lowercase alphanumeric string of length at least 2 (over the modelled
ASCII+German alphabet). -/
theorem claim_C4_tokens (s : List Char) (q : Question) (t : String) :
    (t ∈ tokenize_list s → lowerAlnumToken t) ∧
    (t ∈ wc_tokenize s → lowerAlnumToken t) ∧
    (t ∈ rr_tokenize q → lowerAlnumToken t) := by
  refine ⟨tokenize_list_sound s t, fun h => ?_, fun h => ?_⟩
  · obtain ⟨h1, h2⟩ := splitTokenizeWith_sound _ _ _ _ h
    exact ⟨le_trans (by norm_num) h1, h2⟩
  · obtain ⟨h1, h2⟩ := splitTokenizeWith_sound _ _ _ _ h
    exact ⟨le_trans (by norm_num) h1, h2⟩

/-- Concrete question exercising the repeat-detection tokenizer. -/
def qC4 : Question :=
  { id := "q0", questionText := ("XYZ!").toList, explanationText := [],
    answers := [], correctAnswers := [], correctIndices := [],
    examYear := none, aiAudit := none }

/-- Witness for claim C4 at concrete inputs. -/
theorem claim_C4_witness :
    (("ab") ∈ tokenize_list (("Ab c").toList) ∧ lowerAlnumToken ("ab")) ∧
    (("abc") ∈ wc_tokenize (("der ABC x").toList) ∧
      lowerAlnumToken ("abc")) ∧
    (("xyz") ∈ rr_tokenize qC4 ∧ lowerAlnumToken ("xyz")) :=
  ⟨⟨by decide, (claim_C4_tokens (("Ab c").toList) qC4 ("ab")).1 (by decide)⟩,
   ⟨by decide,
    (claim_C4_tokens (("der ABC x").toList) qC4 ("abc")).2.1 (by decide)⟩,
   ⟨by decide, (claim_C4_tokens [] qC4 ("xyz")).2.2 (by decide)⟩⟩

/-! ## Claim C6: gating conservatism. -/

/-- Claim C6: whenever `cannot_judge` is set, `should_apply_pass_b_change`
returns `false`, whatever the other parameters are. -/
theorem claim_C6_cannot_judge_vetoes
    (current_indices verified_indices : List ℤ) (agree : Bool)
    (confidence_b apply_min_conf_b retrieval_quality : ℚ)
    (evidence_count : ℤ) :
    should_apply_pass_b_change current_indices verified_indices true agree
      confidence_b apply_min_conf_b retrieval_quality evidence_count
      = false := rfl

/-! ## Claim C3: token pruning threshold. -/

/-- Claim C3 (amended): with fewer than 5 sets the input is returned
unchanged; with at least 5 sets, a token is kept exactly when its
document frequency is at most `max 2 ⌊n * ratio⌋` — the effective
threshold has a floor of 2, it is not `⌊n * ratio⌋` alone. -/
theorem claim_C3_pruning (items : List (Finset String)) (ratio : ℚ) :
    (items.length < 5 → (prune_frequent_tokens items ratio).1 = items) ∧
    (5 ≤ items.length → ∀ (i : ℕ) (t : String),
      t ∈ (prune_frequent_tokens items ratio).1.getD i ∅ ↔
        t ∈ items.getD i ∅ ∧
          (docFrequency items t : ℤ) ≤ max 2 ⌊(items.length : ℚ) * ratio⌋) := by
  constructor
  · intro h5
    unfold prune_frequent_tokens
    by_cases he : items = []
    · rw [if_pos he]
    · rw [if_neg he, if_pos h5]
  · intro h5 i t
    have he : items ≠ [] := by
      intro h; rw [h] at h5; simp at h5
    have h5' : ¬ items.length < 5 := by omega
    unfold prune_frequent_tokens
    rw [if_neg he, if_neg h5']
    simp only
    rw [List.getD_eq_getElem?_getD, List.getD_eq_getElem?_getD,
      List.getElem?_map]
    cases hi : items[i]? with
    | none => simp
    | some s => simp [Finset.mem_filter]

/-- Five disjoint singleton token sets: every token has document
frequency 1. -/
def pruneFiveSets : List (Finset String) :=
  [{"alpha"}, {"beta"}, {"gamma"}, {"delta"}, {"epsilon"}]

/-- Counterexample to claim C3 as stated: on five sets, the token
`alpha` has document frequency 1, which exceeds `3% × n = 0.15`, yet it
is kept by the pruning step (the effective threshold is
`max 2 ⌊0.15⌋ = 2`). -/
theorem claim_C3_counterexample :
    ("alpha") ∈ (prune_frequent_tokens pruneFiveSets (3 / 100)).1.getD 0 ∅ ∧
      (pruneFiveSets.length : ℚ) * (3 / 100) <
        (docFrequency pruneFiveSets ("alpha") : ℚ) := by
  have hfl : ⌊(5 : ℚ) * (3 / 100)⌋ = 0 := by
    rw [show (5 : ℚ) * (3 / 100) = 3 / 20 by norm_num, Int.floor_eq_iff]
    norm_num
  have hdf : docFrequency pruneFiveSets ("alpha") = 1 := by decide
  constructor
  · unfold prune_frequent_tokens
    norm_num [pruneFiveSets, hfl]
    decide
  · rw [hdf]
    norm_num [pruneFiveSets]

/-- Two sets, below the pruning minimum. -/
def pruneTwoSets : List (Finset String) := [{"alpha"}, {"alpha"}]

/-- Witness for (amended) claim C3 at concrete inputs. -/
theorem claim_C3_witness :
    (prune_frequent_tokens pruneTwoSets (3 / 100)).1 = pruneTwoSets ∧
      (("alpha") ∈ (prune_frequent_tokens pruneFiveSets (3 / 100)).1.getD 0 ∅ ↔
        ("alpha") ∈ pruneFiveSets.getD 0 ∅ ∧
          (docFrequency pruneFiveSets ("alpha") : ℤ) ≤
            max 2 ⌊(pruneFiveSets.length : ℚ) * (3 / 100)⌋) :=
  ⟨(claim_C3_pruning pruneTwoSets (3 / 100)).1 (by norm_num [pruneTwoSets]),
   (claim_C3_pruning pruneFiveSets (3 / 100)).2
     (by norm_num [pruneFiveSets]) 0 ("alpha")⟩

/-! ## Claim C9: Hamming distance. -/

/-- Claim C9: the hex Hamming distance is symmetric for all strings, and
every string that decodes as hex (in particular every well-formed hash)
is at distance 0 from itself. -/
theorem claim_C9_hamming (a bb : List Char) :
    hamming_distance_hex a bb = hamming_distance_hex bb a ∧
      ((parseHex a).isSome = true → hamming_distance_hex a a = 0) := by
  constructor
  · unfold hamming_distance_hex
    cases parseHex a <;> cases parseHex bb <;> simp [Nat.xor_comm]
  · intro h
    unfold hamming_distance_hex
    cases ha : parseHex a with
    | none => rw [ha] at h; simp at h
    | some x => simp [Nat.xor_self, popCount]

/-- The all-zero 16-hex-character hash. -/
def zeroHash : List Char := List.replicate 16 '0'

/-- Witness for claim C9 at a concrete hash. -/
theorem claim_C9_witness :
    (parseHex zeroHash).isSome = true ∧
      hamming_distance_hex zeroHash zeroHash = 0 :=
  ⟨by decide, (claim_C9_hamming zeroHash zeroHash).2 (by decide)⟩

/-! ## Claim C10: missing audit confidence. -/

/-- Claim C10: a question with no prior audit, or whose audit lacks
`answerPlausibility.finalCombinedConfidence`, has confidence 0; for any
positive anchor threshold it therefore never qualifies as an anchor and
is always classified as a low-quality projection target. -/
theorem claim_C10_missing_confidence (q : Question) (min_conf : ℚ)
    (h : q.aiAudit = none ∨
      (q.aiAudit.bind Audit.answerPlausibility).bind
        Plausibility.finalCombinedConfidence = none) :
    question_conf q = 0 ∧
      (0 < min_conf →
        is_high_quality_anchor q min_conf = false ∧
          target_low_quality q min_conf = true) := by
  have hc : question_conf q = 0 := by
    unfold question_conf
    rcases h with h | h
    · rw [h]; rfl
    · rw [h]; rfl
  refine ⟨hc, fun hmin => ⟨?_, ?_⟩⟩
  · have hlt : question_conf q < min_conf := by rw [hc]; exact hmin
    unfold is_high_quality_anchor
    split_ifs <;> first | rfl | exact absurd hlt (by assumption)
  · have hlt : question_conf q < min_conf := by rw [hc]; exact hmin
    simp only [target_low_quality, Bool.or_eq_true, decide_eq_true_eq]
    exact Or.inr hlt

/-- A question with no prior audit at all. -/
def qNoAudit : Question :=
  { id := "qx", questionText := [], explanationText := [], answers := [],
    correctAnswers := [], correctIndices := [], examYear := none,
    aiAudit := none }

/-- Witness for claim C10 at a concrete question and threshold. -/
theorem claim_C10_witness :
    question_conf qNoAudit = 0 ∧
      is_high_quality_anchor qNoAudit 1 = false ∧
      target_low_quality qNoAudit 1 = true :=
  ⟨(claim_C10_missing_confidence qNoAudit 1 (Or.inl rfl)).1,
   ((claim_C10_missing_confidence qNoAudit 1 (Or.inl rfl)).2 (by norm_num)).1,
   ((claim_C10_missing_confidence qNoAudit 1 (Or.inl rfl)).2 (by norm_num)).2⟩

/-! ## Claim C5: construction over an empty corpus. -/

/-- Claim C5 (amended): only the ZIP build path is fatal on an empty
corpus — it fails exactly when zero usable chunks were extracted; the
saved-index load path performs no emptiness check and yields a knowledge
base with one chunk per stored row, for any payload, including an empty
one. -/
theorem claim_C5_construction (chunks : List Chunk)
    (images : List KnowledgeImage) (payload : IndexPayload) :
    ((build_knowledge_base_from_chunks chunks images).isOk = true ↔
        chunks ≠ []) ∧
      (load_index_data payload).chunks.length = payload.chunks.length := by
  constructor
  · unfold build_knowledge_base_from_chunks
    cases chunks <;> simp [Except.isOk, Except.toBool]
  · simp [load_index_data]

/-- The parsed form of an index file with zero chunks. -/
def emptyPayload : IndexPayload := ⟨[], []⟩

/-- Counterexample to claim C5 as stated: loading an index with zero
chunks does not fail — it returns a knowledge base with no chunks, and
that knowledge base answers retrieval queries (with an empty result). -/
theorem claim_C5_counterexample :
    (load_index_data emptyPayload).chunks = [] ∧
      retrieve (load_index_data emptyPayload) (("abc").toList) 3 0 1000
        = ([], 0) := by
  have hc : (load_index_data emptyPayload).chunks = [] := rfl
  refine ⟨hc, ?_⟩
  unfold retrieve scoredList
  rw [hc]
  simp

/-! ## Claim C7: suggestion index invariants. -/

/-- Sorting a finite set of integers ascending yields a strictly
increasing list. -/
theorem sortedFinset_chain (s : Finset ℤ) :
    (s.sort (· ≤ ·)).Chain' (· < ·) := by
  rw [List.chain'_iff_pairwise]
  exact ((Finset.sort_sorted (· ≤ ·) s).and (Finset.sort_nodup (· ≤ ·) s)).imp
    fun h => lt_of_le_of_ne h.1 h.2

theorem map_anchor_chain (target : Question)
    (anchorTexts : List (List String)) :
    (map_anchor_texts_to_target_indices target anchorTexts).Chain' (· < ·) := by
  unfold map_anchor_texts_to_target_indices
  by_cases ha : anchorTexts = []
  · rw [if_pos ha]; exact List.chain'_nil
  · rw [if_neg ha]
    exact sortedFinset_chain _

theorem map_anchor_mem_derived (target : Question)
    (anchorTexts : List (List String)) :
    ∀ idx ∈ map_anchor_texts_to_target_indices target anchorTexts,
      idx ∈ derive_external_indices target := by
  intro idx h
  unfold map_anchor_texts_to_target_indices at h
  by_cases ha : anchorTexts = []
  · rw [if_pos ha] at h; simp at h
  · rw [if_neg ha] at h
    simp only [Finset.mem_sort, List.mem_toFinset] at h
    rw [List.mem_filterMap] at h
    obtain ⟨ai, hai, hcond⟩ := h
    by_cases hc : norm_text ai.2.text ≠ [] ∧ norm_text ai.2.text ∈ anchorTexts ∧
        ai.1 < (derive_external_indices target).length
    · rw [if_pos hc] at hcond
      obtain rfl := Option.some.inj hcond
      rw [List.getD_eq_getElem?_getD, List.getElem?_eq_getElem hc.2.2]
      simp only [Option.getD_some]
      exact List.getElem_mem _
    · rw [if_neg hc] at hcond; cases hcond

/-- Claim C7: every suggestion emitted by `compute_repeat_reconstruction`
carries a nonempty, strictly ascending (hence duplicate-free) index list,
each element of which is the derived external index of some answer of the
target question (the question in the input list whose id the suggestion
is stored under); no suggestion is emitted from an empty text match. -/
theorem claim_C7_suggestion_invariant (questions : List Question)
    (min_similarity min_anchor_conf : ℚ) (qid : String)
    (s : RepeatSuggestion)
    (h : (qid, s) ∈
      compute_repeat_reconstruction questions min_similarity min_anchor_conf) :
    s.suggested_correct_indices ≠ [] ∧
      s.suggested_correct_indices.Chain' (· < ·) ∧
      ∃ q ∈ questions, q.id = qid ∧
        ∀ idx ∈ s.suggested_correct_indices,
          idx ∈ derive_external_indices q := by
  unfold compute_repeat_reconstruction at h
  rw [List.mem_flatMap] at h
  obtain ⟨ci, hci, hs⟩ := h
  obtain ⟨cIdx, members⟩ := ci
  rw [List.mk_mem_enumFrom_iff_le_and_getElem?_sub] at hci
  have hmembers : members ∈ rrClusters questions min_similarity := by
    cases hg : (rrClusters questions min_similarity)[cIdx - 1]? with
    | none => rw [hg] at hci; cases hci.2
    | some l =>
      rw [hg] at hci
      obtain rfl := Option.some.inj hci.2
      exact List.getElem?_mem hg
  unfold clusterSuggestions at hs
  split_ifs at hs with hg1 hg2 hg3 <;> try simp at hs
  obtain ⟨m, hm, hcond⟩ := hs
  -- peel the guards of the per-member body
  simp only [memberSuggestion] at hcond
  split_ifs at hcond with h1 h2 h3 h4 <;>
    try exact Option.noConfusion hcond
  obtain ⟨rfl, rfl⟩ := Prod.mk.injEq .. |>.mp (Option.some.inj hcond)
  refine ⟨h4, map_anchor_chain _ _, ?_⟩
  -- the target question is a real member of the input list
  have hmlt : m < questions.length := by
    unfold rrClusters at hmembers
    rw [List.mem_map] at hmembers
    obtain ⟨r, -, hr⟩ := hmembers
    have : m ∈ (List.range questions.length).filter
        (fun i => ufFind (rrUnionFindState questions min_similarity) i = r) := by
      rw [hr]; exact hm
    exact List.mem_range.mp (List.mem_of_mem_filter this)
  refine ⟨questions.getD m default, ?_, rfl, map_anchor_mem_derived _ _⟩
  rw [List.getD_eq_getElem?_getD, List.getElem?_eq_getElem hmlt]
  simp only [Option.getD_some]
  exact List.getElem_mem _

/-- Concrete repeat-cluster anchor: completed audit, clean maintenance,
full confidence, one recorded correct answer. -/
def qAnchor : Question :=
  { id := "q1"
    questionText := ("paris hauptstadt frankreich").toList
    explanationText := []
    answers := [{ text := ("paris").toList, answerIndex := none,
                  position := none, index := none, isCorrect := true }]
    correctAnswers := []
    correctIndices := [1]
    examYear := some 2020
    aiAudit := some
      { status := some ("completed")
        maintenance := some { needsMaintenance := false }
        answerPlausibility := some { finalCombinedConfidence := some 1 } } }

/-- Concrete degraded duplicate from another year with no prior audit. -/
def qTarget : Question :=
  { id := "q2"
    questionText := ("paris hauptstadt frankreich").toList
    explanationText := []
    answers := [{ text := ("paris").toList, answerIndex := some 2,
                  position := none, index := none, isCorrect := false }]
    correctAnswers := []
    correctIndices := []
    examYear := some 2021
    aiAudit := none }

/-- The suggestion the pair above produces. -/
def suggC7 : RepeatSuggestion :=
  { cluster_id := 1
    anchor_question_id := "q1"
    confidence := 1
    suggested_correct_indices := [2]
    matched_correct_texts := [[("paris")]] }

/-- Witness for claim C7: the two-question run emits exactly the expected
suggestion, and the claimed invariants hold of it. -/
theorem claim_C7_witness :
    (("q2"), suggC7) ∈ compute_repeat_reconstruction [qAnchor, qTarget] 1 1 ∧
      suggC7.suggested_correct_indices ≠ [] ∧
      suggC7.suggested_correct_indices.Chain' (· < ·) ∧
      ∃ q ∈ [qAnchor, qTarget], q.id = ("q2") ∧
        ∀ idx ∈ suggC7.suggested_correct_indices,
          idx ∈ derive_external_indices q := by
  have hsim : rr_similarity (rr_tokenize qAnchor) (rr_tokenize qTarget)
      = 1 := by
    have ht : rr_tokenize qTarget = rr_tokenize qAnchor := by decide
    rw [ht]
    unfold rr_similarity
    rw [if_neg (by simp only [or_self]; decide)]
    rw [Finset.inter_self, Finset.union_self]
    rw [show (rr_tokenize qAnchor).card = 3 from by decide]
    norm_num
  have huf : rrUnionFindState [qAnchor, qTarget] 1 = [0, 0] := by
    simp only [rrUnionFindState]
    rw [show ([qAnchor, qTarget].map rr_tokenize)
        = [rr_tokenize qAnchor, rr_tokenize qTarget] from rfl]
    rw [show candidate_pairs [rr_tokenize qAnchor, rr_tokenize qTarget]
        = [(0, 1)] from by decide]
    rw [List.foldl_cons, List.foldl_nil]
    rw [if_pos]
    · decide
    · rw [show ([rr_tokenize qAnchor, rr_tokenize qTarget].getD 0 ∅)
          = rr_tokenize qAnchor from rfl,
        show ([rr_tokenize qAnchor, rr_tokenize qTarget].getD 1 ∅)
          = rr_tokenize qTarget from rfl, hsim]
  have hcl : rrClusters [qAnchor, qTarget] 1 = [[0, 1]] := by
    simp only [rrClusters]
    rw [huf]
    decide
  have hhq1 : is_high_quality_anchor qAnchor 1 = true := by
    unfold is_high_quality_anchor
    norm_num [qAnchor, needs_maintenance, question_conf]
  have hhq2 : is_high_quality_anchor qTarget 1 = false := by
    unfold is_high_quality_anchor
    norm_num [qTarget]
  have e0 : ([qAnchor, qTarget].getD 0 default) = qAnchor := rfl
  have e1 : ([qAnchor, qTarget].getD 1 default) = qTarget := rfl
  have hca : clusterAnchors [qAnchor, qTarget] 1 [0, 1] = [0] := by
    unfold clusterAnchors
    simp [List.filter_cons, e0, e1, hhq1, hhq2]
  have hbest : bestAnchor [qAnchor, qTarget] 1 [0, 1] = 0 := by
    unfold bestAnchor
    rw [hca]
    rfl
  have htl : target_low_quality qTarget 1 = true := by
    unfold target_low_quality
    norm_num [needs_maintenance, question_conf, qTarget]
  have hms0 : memberSuggestion [qAnchor, qTarget] 1 1 0 0 = none := by
    unfold memberSuggestion
    rw [if_pos rfl]
  have hmap : map_anchor_texts_to_target_indices qTarget
      (anchor_correct_texts qAnchor) = [2] := by
    simp only [map_anchor_texts_to_target_indices]
    rw [if_neg (by decide)]
    rw [show ((qTarget.answers.enum).filterMap fun ai =>
        let t := norm_text ai.2.text
        if t ≠ [] ∧ t ∈ anchor_correct_texts qAnchor ∧
            ai.1 < (derive_external_indices qTarget).length then
          some ((derive_external_indices qTarget).getD ai.1 0)
        else none) = [2] from by decide]
    rw [show ([(2 : ℤ)].toFinset) = {2} from rfl]
    exact Finset.sort_singleton (· ≤ ·) 2
  have hms1 : memberSuggestion [qAnchor, qTarget] 1 1 0 1
      = some (("q2"), suggC7) := by
    simp only [memberSuggestion, e0, e1, htl, hmap]
    rw [if_neg (by norm_num)]
    rw [if_neg (by decide)]
    rw [if_neg (by norm_num)]
    rw [if_neg (by decide)]
    rfl
  have hmem : (("q2"), suggC7) ∈
      compute_repeat_reconstruction [qAnchor, qTarget] 1 1 := by
    unfold compute_repeat_reconstruction
    rw [hcl]
    rw [show List.enumFrom 1 [[0, 1]] = [(1, [0, 1])] from rfl]
    rw [List.flatMap_cons, List.flatMap_nil, List.append_nil]
    unfold clusterSuggestions
    rw [if_neg (by norm_num)]
    rw [if_neg (by decide)]
    rw [if_neg (by rw [hca]; decide)]
    rw [hbest]
    simp [List.filterMap_cons, hms0, hms1]
  exact ⟨hmem, claim_C7_suggestion_invariant _ _ _ _ _ hmem⟩

/-! ## Branch equations and invariants of the selection loop. -/

theorem selectLoop_nil (topK maxChars : ℕ) (st : SelState) :
    selectLoop topK maxChars [] st = st := by
  rw [selectLoop]

theorem selectLoop_full (topK maxChars : ℕ) (c : ℝ × Chunk)
    (cs : List (ℝ × Chunk)) (st : SelState)
    (h : topK ≤ st.selected.length) :
    selectLoop topK maxChars (c :: cs) st = st := by
  rw [selectLoop, if_pos h]

theorem selectLoop_skip (topK maxChars : ℕ) (c : ℝ × Chunk)
    (cs : List (ℝ × Chunk)) (st : SelState)
    (h1 : ¬ topK ≤ st.selected.length)
    (h2 : pyStrip ((c :: cs).getD (bestIdx st.sources (c :: cs))
      (0, default)).2.text = []) :
    selectLoop topK maxChars (c :: cs) st =
      selectLoop topK maxChars
        ((c :: cs).eraseIdx (bestIdx st.sources (c :: cs))) st := by
  rw [selectLoop]
  simp only [if_neg h1, if_pos h2]

theorem selectLoop_break_budget (topK maxChars : ℕ) (c : ℝ × Chunk)
    (cs : List (ℝ × Chunk)) (st : SelState)
    (h1 : ¬ topK ≤ st.selected.length)
    (h2 : pyStrip ((c :: cs).getD (bestIdx st.sources (c :: cs))
      (0, default)).2.text ≠ [])
    (h3 : (maxChars : ℤ) - (st.used : ℤ) ≤ 0) :
    selectLoop topK maxChars (c :: cs) st = st := by
  rw [selectLoop]
  simp only [if_neg h1, if_neg h2, if_pos h3]

theorem selectLoop_push (topK maxChars : ℕ) (c : ℝ × Chunk)
    (cs : List (ℝ × Chunk)) (st : SelState)
    (h1 : ¬ topK ≤ st.selected.length)
    (h2 : pyStrip ((c :: cs).getD (bestIdx st.sources (c :: cs))
      (0, default)).2.text ≠ [])
    (h3 : ¬ (maxChars : ℤ) - (st.used : ℤ) ≤ 0)
    (h4 : ((pyStrip ((c :: cs).getD (bestIdx st.sources (c :: cs))
        (0, default)).2.text).length : ℤ) ≤ (maxChars : ℤ) - (st.used : ℤ)) :
    selectLoop topK maxChars (c :: cs) st =
      selectLoop topK maxChars
        ((c :: cs).eraseIdx (bestIdx st.sources (c :: cs)))
        (pushState st
          ((c :: cs).getD (bestIdx st.sources (c :: cs)) (0, default))
          (pyStrip ((c :: cs).getD (bestIdx st.sources (c :: cs))
            (0, default)).2.text)) := by
  rw [selectLoop]
  simp only [if_neg h1, if_neg h2, if_neg h3, if_pos h4]

theorem selectLoop_break_small (topK maxChars : ℕ) (c : ℝ × Chunk)
    (cs : List (ℝ × Chunk)) (st : SelState)
    (h1 : ¬ topK ≤ st.selected.length)
    (h2 : pyStrip ((c :: cs).getD (bestIdx st.sources (c :: cs))
      (0, default)).2.text ≠ [])
    (h3 : ¬ (maxChars : ℤ) - (st.used : ℤ) ≤ 0)
    (h4 : ¬ ((pyStrip ((c :: cs).getD (bestIdx st.sources (c :: cs))
        (0, default)).2.text).length : ℤ) ≤ (maxChars : ℤ) - (st.used : ℤ))
    (h5 : (maxChars : ℤ) - (st.used : ℤ) < 220) :
    selectLoop topK maxChars (c :: cs) st = st := by
  rw [selectLoop]
  simp only [if_neg h1, if_neg h2, if_neg h3, if_neg h4, if_pos h5]

theorem selectLoop_trunc (topK maxChars : ℕ) (c : ℝ × Chunk)
    (cs : List (ℝ × Chunk)) (st : SelState)
    (h1 : ¬ topK ≤ st.selected.length)
    (h2 : pyStrip ((c :: cs).getD (bestIdx st.sources (c :: cs))
      (0, default)).2.text ≠ [])
    (h3 : ¬ (maxChars : ℤ) - (st.used : ℤ) ≤ 0)
    (h4 : ¬ ((pyStrip ((c :: cs).getD (bestIdx st.sources (c :: cs))
        (0, default)).2.text).length : ℤ) ≤ (maxChars : ℤ) - (st.used : ℤ))
    (h5 : ¬ (maxChars : ℤ) - (st.used : ℤ) < 220) :
    selectLoop topK maxChars (c :: cs) st =
      selectLoop topK maxChars
        ((c :: cs).eraseIdx (bestIdx st.sources (c :: cs)))
        (pushState st
          ((c :: cs).getD (bestIdx st.sources (c :: cs)) (0, default))
          (truncateSnippet
            (pyStrip ((c :: cs).getD (bestIdx st.sources (c :: cs))
              (0, default)).2.text)
            ((maxChars : ℤ) - (st.used : ℤ)).toNat)) := by
  rw [selectLoop]
  simp only [if_neg h1, if_neg h2, if_neg h3, if_neg h4, if_neg h5]

/-- The part kept by `rsplit` is no longer than its input. -/
theorem rsplitBeforeLastSpace_length_le (t : List Char) :
    (rsplitBeforeLastSpace t).length ≤ t.length := by
  simp only [rsplitBeforeLastSpace]
  by_cases h : (t.reverse.dropWhile fun c => c ≠ ' ') = []
  · rw [if_pos h]
  · rw [if_neg h]
    calc ((t.reverse.dropWhile fun c => c ≠ ' ').drop 1).reverse.length
        ≤ (t.reverse.dropWhile fun c => c ≠ ' ').length := by
          rw [List.length_reverse, List.length_drop]; omega
      _ ≤ t.reverse.length :=
          (List.dropWhile_suffix _).sublist.length_le
      _ = t.length := List.length_reverse _

/-- A truncated snippet exceeds the remaining budget by at most the two
characters of the ellipsis marker. -/
theorem truncateSnippet_length_le (s : List Char) (m : ℕ) :
    (truncateSnippet s m).length ≤ m + 2 := by
  unfold truncateSnippet
  rw [List.length_append]
  have h1 := rsplitBeforeLastSpace_length_le (s.take m)
  have h2 : (s.take m).length ≤ m := by
    rw [List.length_take]; omega
  have h3 : (([' ', '…']) : List Char).length = 2 := rfl
  omega

/-- The loop only appends to the selection. -/
theorem selectLoop_prefix (topK maxChars : ℕ) :
    ∀ (cs : List (ℝ × Chunk)) (st : SelState),
      st.selected <+: (selectLoop topK maxChars cs st).selected := by
  intro cs st
  induction cs, st using selectLoop.induct topK maxChars with
  | case1 st => rw [selectLoop_nil]
  | case2 c cs st h => rw [selectLoop_full _ _ _ _ _ h]
  | case3 c cs st h1 bi p rest snip hsnip ih =>
    rw [selectLoop_skip _ _ _ _ _ h1 hsnip]
    exact ih
  | case4 c cs st h1 bi p snip h2 h3 =>
    rw [selectLoop_break_budget _ _ _ _ _ h1 h2 h3]
  | case5 c cs st h1 bi p rest snip h2 h3 h4 ih =>
    rw [selectLoop_push _ _ _ _ _ h1 h2 h3 h4]
    refine List.IsPrefix.trans ?_ ih
    exact List.prefix_append _ _
  | case6 c cs st h1 bi p snip h2 h3 h4 h5 =>
    rw [selectLoop_break_small _ _ _ _ _ h1 h2 h3 h4 h5]
  | case7 c cs st h1 bi p rest snip h2 h3 h4 h5 ih =>
    rw [selectLoop_trunc _ _ _ _ _ h1 h2 h3 h4 h5]
    refine List.IsPrefix.trans ?_ ih
    exact List.prefix_append _ _

/-- The loop never selects more than `topK` rows beyond what it starts
with. -/
theorem selectLoop_length_le (topK maxChars : ℕ) :
    ∀ (cs : List (ℝ × Chunk)) (st : SelState),
      (selectLoop topK maxChars cs st).selected.length ≤
        max st.selected.length topK := by
  intro cs st
  induction cs, st using selectLoop.induct topK maxChars with
  | case1 st => rw [selectLoop_nil]; exact le_max_left _ _
  | case2 c cs st h =>
    rw [selectLoop_full _ _ _ _ _ h]; exact le_max_left _ _
  | case3 c cs st h1 bi p rest snip hsnip ih =>
    rw [selectLoop_skip _ _ _ _ _ h1 hsnip]; exact ih
  | case4 c cs st h1 bi p snip h2 h3 =>
    rw [selectLoop_break_budget _ _ _ _ _ h1 h2 h3]; exact le_max_left _ _
  | case5 c cs st h1 bi p rest snip h2 h3 h4 ih =>
    rw [selectLoop_push _ _ _ _ _ h1 h2 h3 h4]
    refine le_trans ih ?_
    simp only [pushState, List.length_append, List.length_singleton]
    omega
  | case6 c cs st h1 bi p snip h2 h3 h4 h5 =>
    rw [selectLoop_break_small _ _ _ _ _ h1 h2 h3 h4 h5]
    exact le_max_left _ _
  | case7 c cs st h1 bi p rest snip h2 h3 h4 h5 ih =>
    rw [selectLoop_trunc _ _ _ _ _ h1 h2 h3 h4 h5]
    refine le_trans ih ?_
    simp only [pushState, List.length_append, List.length_singleton]
    omega

/-- The loop never uses more than `maxChars + 2` characters beyond what
it starts with. -/
theorem selectLoop_used_le (topK maxChars : ℕ) :
    ∀ (cs : List (ℝ × Chunk)) (st : SelState),
      (selectLoop topK maxChars cs st).used ≤
        max st.used (maxChars + 2) := by
  intro cs st
  induction cs, st using selectLoop.induct topK maxChars with
  | case1 st => rw [selectLoop_nil]; exact le_max_left _ _
  | case2 c cs st h =>
    rw [selectLoop_full _ _ _ _ _ h]; exact le_max_left _ _
  | case3 c cs st h1 bi p rest snip hsnip ih =>
    rw [selectLoop_skip _ _ _ _ _ h1 hsnip]; exact ih
  | case4 c cs st h1 bi p snip h2 h3 =>
    rw [selectLoop_break_budget _ _ _ _ _ h1 h2 h3]; exact le_max_left _ _
  | case5 c cs st h1 bi p rest snip h2 h3 h4 ih =>
    rw [selectLoop_push _ _ _ _ _ h1 h2 h3 h4]
    refine le_trans ih ?_
    have hpu : (pushState st p snip).used = st.used + snip.length := rfl
    rw [hpu]
    omega
  | case6 c cs st h1 bi p snip h2 h3 h4 h5 =>
    rw [selectLoop_break_small _ _ _ _ _ h1 h2 h3 h4 h5]
    exact le_max_left _ _
  | case7 c cs st h1 bi p rest snip h2 h3 h4 h5 ih =>
    rw [selectLoop_trunc _ _ _ _ _ h1 h2 h3 h4 h5]
    refine le_trans ih ?_
    have hpu : (pushState st p
        (truncateSnippet snip ((maxChars : ℤ) - (st.used : ℤ)).toNat)).used =
        st.used +
          (truncateSnippet snip
            ((maxChars : ℤ) - (st.used : ℤ)).toNat).length := rfl
    rw [hpu]
    have htr := truncateSnippet_length_le snip
      ((maxChars : ℤ) - (st.used : ℤ)).toNat
    omega

/-- The used-character counter tracks the total snippet length. -/
theorem selectLoop_used_eq_sum (topK maxChars : ℕ) :
    ∀ (cs : List (ℝ × Chunk)) (st : SelState),
      st.used = (st.selected.map fun e => e.text.length).sum →
      (selectLoop topK maxChars cs st).used =
        (((selectLoop topK maxChars cs st).selected.map
          fun e => e.text.length)).sum := by
  intro cs st
  induction cs, st using selectLoop.induct topK maxChars with
  | case1 st => intro h; rw [selectLoop_nil]; exact h
  | case2 c cs st h => intro hh; rw [selectLoop_full _ _ _ _ _ h]; exact hh
  | case3 c cs st h1 bi p rest snip hsnip ih =>
    intro hh
    rw [selectLoop_skip _ _ _ _ _ h1 hsnip]
    exact ih hh
  | case4 c cs st h1 bi p snip h2 h3 =>
    intro hh
    rw [selectLoop_break_budget _ _ _ _ _ h1 h2 h3]; exact hh
  | case5 c cs st h1 bi p rest snip h2 h3 h4 ih =>
    intro hh
    rw [selectLoop_push _ _ _ _ _ h1 h2 h3 h4]
    refine ih ?_
    simp only [pushState, List.map_append, List.sum_append, List.map_cons,
      List.map_nil, List.sum_cons, List.sum_nil]
    omega
  | case6 c cs st h1 bi p snip h2 h3 h4 h5 =>
    intro hh
    rw [selectLoop_break_small _ _ _ _ _ h1 h2 h3 h4 h5]; exact hh
  | case7 c cs st h1 bi p rest snip h2 h3 h4 h5 ih =>
    intro hh
    rw [selectLoop_trunc _ _ _ _ _ h1 h2 h3 h4 h5]
    refine ih ?_
    simp only [pushState, List.map_append, List.sum_append, List.map_cons,
      List.map_nil, List.sum_cons, List.sum_nil]
    omega

/-- Claim C2 (amended): `retrieve` returns at most `topK` evidence rows
and the total snippet length never exceeds `maxChars + 2` — the
word-boundary truncation appends a two-character ellipsis marker after
cutting at the remaining budget, so the budget can be overshot by up to
2 characters (and by no more). -/
theorem claim_C2_budget (kb : KnowledgeBase) (queryText : List Char)
    (topK : ℕ) (minScore : ℝ) (maxChars : ℕ) :
    (retrieve kb queryText topK minScore maxChars).1.length ≤ topK ∧
      (((retrieve kb queryText topK minScore maxChars).1.map
        fun e => e.text.length)).sum ≤ maxChars + 2 := by
  unfold retrieve
  by_cases h0 : (scoredList kb queryText minScore).isEmpty
  · rw [if_pos h0]; simp
  · rw [if_neg h0]
    simp only
    by_cases h1 : (retrieveState kb queryText topK minScore maxChars).selected.isEmpty
    · rw [if_pos h1]; simp
    · rw [if_neg h1]
      simp only
      constructor
      · have := selectLoop_length_le topK maxChars
          ((((scoredList kb queryText minScore).insertionSort
            fun a bb => bb.1 ≤ a.1)).take (max 1 (topK * 6)))
          ⟨[], 0, 0, ∅⟩
        simpa [retrieveState] using this
      · have hsum := selectLoop_used_eq_sum topK maxChars
          ((((scoredList kb queryText minScore).insertionSort
            fun a bb => bb.1 ≤ a.1)).take (max 1 (topK * 6)))
          ⟨[], 0, 0, ∅⟩ (by simp)
        have hle := selectLoop_used_le topK maxChars
          ((((scoredList kb queryText minScore).insertionSort
            fun a bb => bb.1 ≤ a.1)).take (max 1 (topK * 6)))
          ⟨[], 0, 0, ∅⟩
        rw [retrieveState]
        rw [← hsum]
        simpa using hle

/-! ## Concrete evaluation helpers for retrieval runs. -/

/-- A single-candidate scan always picks index 0. -/
theorem bestIdx_singleton (sources : Finset String) (p : ℝ × Chunk) :
    bestIdx sources [p] = 0 := by
  unfold bestIdx
  simp only [bestAux]
  split_ifs <;> rfl

/-- The BM25 score of a chunk whose positive-frequency overlap is a
single term. -/
theorem bm25_single (kb : KnowledgeBase) (qU : Finset String) (c : Chunk)
    (t : String)
    (hset : (qU ∩ c.tokens).filter (fun u => 0 < c.termFreq u) = {t}) :
    bm25Score kb qU c =
      idf kb t *
        (((c.termFreq t : ℝ) * (1.4 + 1)) /
          max 1e-6
            ((c.termFreq t : ℝ) +
              1.4 * (1 - 0.72 + 0.72 * (c.length : ℝ) / max 1e-6 (avg_len kb)))) := by
  unfold bm25Score
  rw [hset, Finset.sum_singleton]

/-! ## Claim C2, counterexample: ellipsis overshoot. -/

/-- The 230-character space-free token. -/
def tokLong : String := String.mk (List.replicate 230 'a')

/-- A chunk whose text is one 230-character word. -/
def cLong : Chunk :=
  { chunk_id := "c"
    source := "s"
    page := 0
    text := List.replicate 230 'a'
    tokens := {tokLong}
    termFreq := fun t => if t = tokLong then 1 else 0
    length := 1 }

/-- The one-chunk index over `cLong`. -/
def kbLong : KnowledgeBase := { chunks := [cLong], images := [] }

/-- The query matching the long chunk. -/
def qLong : List Char := List.replicate 230 'a'

theorem idf_kbLong : idf kbLong tokLong = Real.log ((1 - 1 + 0.5) / (1 + 0.5) + 1) := by
  unfold idf
  rw [show doc_freq kbLong tokLong = 1 from by decide,
    show docCount kbLong = 1 from rfl]
  norm_num

theorem bm25_kbLong :
    bm25Score kbLong ((tokenize_list qLong).toFinset) cLong
      = Real.log ((1 - 1 + 0.5) / (1 + 0.5) + 1) := by
  rw [bm25_single kbLong _ cLong tokLong (by decide)]
  rw [idf_kbLong]
  rw [show (cLong.termFreq tokLong) = 1 from by decide]
  rw [show avg_len kbLong = 1 from by
    unfold avg_len
    rw [show docCount kbLong = 1 from rfl]
    norm_num [kbLong, cLong]]
  rw [show max (1e-6 : ℝ) 1 = 1 from max_eq_right (by norm_num)]
  rw [show ((1 : ℤ) : ℝ) + 1.4 * (1 - 0.72 + 0.72 * ((cLong.length : ℤ) : ℝ) / 1)
      = 2.4 from by norm_num [cLong]]
  rw [show max (1e-6 : ℝ) 2.4 = 2.4 from max_eq_right (by norm_num)]
  norm_num

theorem scoredList_kbLong :
    scoredList kbLong qLong 0 =
      [(Real.log ((1 - 1 + 0.5) / (1 + 0.5) + 1), cLong)] := by
  unfold scoredList
  rw [if_neg (by decide)]
  rw [show kbLong.chunks = [cLong] from rfl]
  rw [List.filterMap_cons, List.filterMap_nil]
  rw [if_pos (show (((tokenize_list qLong).toFinset ∩ cLong.tokens)).Nonempty
    from by decide)]
  rw [bm25_kbLong]
  rw [if_pos (Real.log_nonneg (by norm_num))]

theorem retrieveState_kbLong :
    retrieveState kbLong qLong 1 0 220 =
      pushState ⟨[], 0, 0, ∅⟩
        (Real.log ((1 - 1 + 0.5) / (1 + 0.5) + 1), cLong)
        (truncateSnippet (pyStrip cLong.text)
          (((220 : ℤ) - ((0 : ℕ) : ℤ)).toNat)) := by
  unfold retrieveState
  rw [scoredList_kbLong]
  rw [show (([(Real.log ((1 - 1 + 0.5) / (1 + 0.5) + 1), cLong)]).insertionSort
      fun a bb => bb.1 ≤ a.1)
    = [(Real.log ((1 - 1 + 0.5) / (1 + 0.5) + 1), cLong)] from rfl]
  rw [show ([(Real.log ((1 - 1 + 0.5) / (1 + 0.5) + 1), cLong)]).take
      (max 1 (1 * 6))
    = [(Real.log ((1 - 1 + 0.5) / (1 + 0.5) + 1), cLong)] from rfl]
  rw [selectLoop_trunc 1 220 _ [] ⟨[], 0, 0, ∅⟩
    (by norm_num)
    (by rw [bestIdx_singleton]; decide)
    (by norm_num)
    (by rw [bestIdx_singleton]; norm_num; decide)
    (by norm_num)]
  rw [bestIdx_singleton]
  rw [show (([(Real.log ((1 - 1 + 0.5) / (1 + 0.5) + 1), cLong)]).eraseIdx 0)
    = [] from rfl]
  rw [selectLoop_nil]
  rfl

/-- Counterexample to claim C2 as stated: with `maxChars = 220` and a
single 230-character space-free chunk, the returned snippet is the
220-character cut plus the 2-character ellipsis marker — 222 characters,
exceeding the budget. -/
theorem claim_C2_counterexample :
    (((retrieve kbLong qLong 1 0 220).1.map fun e => e.text.length)).sum
        = 222 ∧ 220 < 222 := by
  refine ⟨?_, by norm_num⟩
  unfold retrieve
  rw [if_neg (show ¬ (scoredList kbLong qLong 0).isEmpty = true from by
    rw [scoredList_kbLong]; decide)]
  simp only
  rw [if_neg (show ¬ (retrieveState kbLong qLong 1 0 220).selected.isEmpty
      = true from by
    rw [retrieveState_kbLong]
    simp [pushState])]
  simp only
  rw [retrieveState_kbLong]
  rw [show (pushState ⟨[], 0, 0, ∅⟩
      (Real.log ((1 - 1 + 0.5) / (1 + 0.5) + 1), cLong)
      (truncateSnippet (pyStrip cLong.text)
        (((220 : ℤ) - ((0 : ℕ) : ℤ)).toNat))).selected.map
        (fun e => e.text.length)
    = [(truncateSnippet (pyStrip cLong.text)
        (((220 : ℤ) - ((0 : ℕ) : ℤ)).toNat)).length] from rfl]
  rw [show (truncateSnippet (pyStrip cLong.text)
      (((220 : ℤ) - ((0 : ℕ) : ℤ)).toNat)).length = 222 from by decide]
  rfl

/-! ## Claim C8: retrieval quality. -/

/-- Round-half-even of a nonnegative real is nonnegative. -/
theorem pyRoundHalfEven_nonneg {x : ℝ} (h : 0 ≤ x) :
    0 ≤ pyRoundHalfEven x := by
  unfold pyRoundHalfEven
  split_ifs with hf
  · have : (0 : ℤ) ≤ round (x / 2) := by
      rw [round_eq]
      exact Int.le_floor.mpr (by push_cast; linarith)
    omega
  · rw [round_eq]
    exact Int.le_floor.mpr (by push_cast; linarith)

/-- Round-half-even of a real below `n` is at most `n`. -/
theorem pyRoundHalfEven_le {x : ℝ} {n : ℕ} (h : x < n) :
    pyRoundHalfEven x ≤ n := by
  unfold pyRoundHalfEven
  split_ifs with hf
  · have h1 := abs_sub_round (x / 2)
    rw [abs_sub_le_iff] at h1
    have : ((2 * round (x / 2) : ℤ) : ℝ) < (n : ℝ) + 1 := by
      push_cast
      linarith [h1.1]
    have : (2 * round (x / 2) : ℤ) < (n : ℤ) + 1 := by exact_mod_cast this
    omega
  · have h1 := abs_sub_round x
    rw [abs_sub_le_iff] at h1
    have : ((round x : ℤ) : ℝ) < (n : ℝ) + 1 := by linarith [h1.1]
    have : (round x : ℤ) < (n : ℤ) + 1 := by exact_mod_cast this
    omega

/-- `round(x, 4)` of a value in `[0, 1)` lies in `[0, 1]` (it can reach
exactly 1 by rounding up). -/
theorem pyRound4_bounds {x : ℝ} (h0 : 0 ≤ x) (h1 : x < 1) :
    0 ≤ pyRound4 x ∧ pyRound4 x ≤ 1 := by
  unfold pyRound4
  have hx0 : 0 ≤ x * 10 ^ 4 := by positivity
  have hx1 : x * 10 ^ 4 < ((10 ^ 4 : ℕ) : ℝ) := by push_cast; nlinarith
  have hl := pyRoundHalfEven_nonneg hx0
  have hu := pyRoundHalfEven_le hx1
  constructor
  · positivity
  · rw [div_le_one (by norm_num)]
    calc ((pyRoundHalfEven (x * 10 ^ 4) : ℤ) : ℝ)
        ≤ (((10 ^ 4 : ℕ) : ℤ) : ℝ) := by exact_mod_cast hu
      _ = 10 ^ 4 := by norm_num

/-- Every scored chunk reaches the score floor. -/
theorem scoredList_min_le (kb : KnowledgeBase) (queryText : List Char)
    (minScore : ℝ) :
    ∀ p ∈ scoredList kb queryText minScore, minScore ≤ p.1 := by
  intro p hp
  unfold scoredList at hp
  split_ifs at hp with h0
  · cases hp
  · rw [List.mem_filterMap] at hp
    obtain ⟨c, -, hcond⟩ := hp
    split_ifs at hcond with h1 h2
    obtain rfl := Option.some.inj hcond
    exact h2

/-- The accumulated score stays nonnegative when all candidate scores
are. -/
theorem selectLoop_total_nonneg (topK maxChars : ℕ) :
    ∀ (cs : List (ℝ × Chunk)) (st : SelState),
      (∀ p ∈ cs, 0 ≤ p.1) → 0 ≤ st.total →
      0 ≤ (selectLoop topK maxChars cs st).total := by
  intro cs st
  induction cs, st using selectLoop.induct topK maxChars with
  | case1 st => intro _ h; rw [selectLoop_nil]; exact h
  | case2 c cs st h => intro _ hh; rw [selectLoop_full _ _ _ _ _ h]; exact hh
  | case3 c cs st h1 bi p rest snip hsnip ih =>
    intro hcs hh
    rw [selectLoop_skip _ _ _ _ _ h1 hsnip]
    exact ih (fun q hq => hcs q ((List.eraseIdx_sublist _ _).mem hq)) hh
  | case4 c cs st h1 bi p snip h2 h3 =>
    intro _ hh
    rw [selectLoop_break_budget _ _ _ _ _ h1 h2 h3]; exact hh
  | case5 c cs st h1 bi p rest snip h2 h3 h4 ih =>
    intro hcs hh
    rw [selectLoop_push _ _ _ _ _ h1 h2 h3 h4]
    refine ih (fun q hq => hcs q ((List.eraseIdx_sublist _ _).mem hq)) ?_
    have hmem : (c :: cs).getD (bestIdx st.sources (c :: cs)) (0, default)
        ∈ c :: cs := by
      rw [List.getD_eq_getElem?_getD,
        List.getElem?_eq_getElem (bestIdx_lt st.sources (c :: cs) (by simp))]
      simp only [Option.getD_some]
      exact List.getElem_mem _
    have := hcs _ hmem
    simp only [pushState]
    linarith
  | case6 c cs st h1 bi p snip h2 h3 h4 h5 =>
    intro _ hh
    rw [selectLoop_break_small _ _ _ _ _ h1 h2 h3 h4 h5]; exact hh
  | case7 c cs st h1 bi p rest snip h2 h3 h4 h5 ih =>
    intro hcs hh
    rw [selectLoop_trunc _ _ _ _ _ h1 h2 h3 h4 h5]
    refine ih (fun q hq => hcs q ((List.eraseIdx_sublist _ _).mem hq)) ?_
    have hmem : (c :: cs).getD (bestIdx st.sources (c :: cs)) (0, default)
        ∈ c :: cs := by
      rw [List.getD_eq_getElem?_getD,
        List.getElem?_eq_getElem (bestIdx_lt st.sources (c :: cs) (by simp))]
      simp only [Option.getD_some]
      exact List.getElem_mem _
    have := hcs _ hmem
    simp only [pushState]
    linarith

/-- Claim C8 (amended): `retrieve` returns quality 0 when nothing is
selected, and otherwise the 4-decimal *rounding* of
`1 − exp(−0.35 · meanSelectedScore)` — the exact value of the formula is
not returned, its rounding is; for a nonnegative score floor the result
lies in the closed interval `[0, 1]` (rounding can reach exactly 1). -/
theorem claim_C8_quality (kb : KnowledgeBase) (queryText : List Char)
    (topK : ℕ) (minScore : ℝ) (maxChars : ℕ) :
    ((retrieve kb queryText topK minScore maxChars).1 = [] →
      (retrieve kb queryText topK minScore maxChars).2 = 0) ∧
    ((retrieve kb queryText topK minScore maxChars).1 ≠ [] →
      (retrieve kb queryText topK minScore maxChars).2 =
        pyRound4 (1 - Real.exp (-(0.35) *
          ((retrieveState kb queryText topK minScore maxChars).total /
            ((retrieveState kb queryText topK minScore
              maxChars).selected.length : ℝ))))) ∧
    (0 ≤ minScore →
      0 ≤ (retrieve kb queryText topK minScore maxChars).2 ∧
        (retrieve kb queryText topK minScore maxChars).2 ≤ 1) := by
  have hmean : ∀ (hne : ¬ (retrieveState kb queryText topK minScore
      maxChars).selected.isEmpty = true), 0 ≤ minScore →
      0 ≤ (retrieveState kb queryText topK minScore maxChars).total /
        ((retrieveState kb queryText topK minScore
          maxChars).selected.length : ℝ) := by
    intro hne hms
    apply div_nonneg
    · unfold retrieveState
      apply selectLoop_total_nonneg
      · intro p hp
        have hp1 : p ∈ ((scoredList kb queryText minScore).insertionSort
            fun a bb => bb.1 ≤ a.1) := List.mem_of_mem_take hp
        have hp2 : p ∈ scoredList kb queryText minScore :=
          (List.perm_insertionSort _ _).mem_iff.mp hp1
        exact le_trans hms (scoredList_min_le kb queryText minScore p hp2)
      · exact le_refl 0
    · positivity
  unfold retrieve
  by_cases h0 : (scoredList kb queryText minScore).isEmpty
  · rw [if_pos h0]; norm_num
  · rw [if_neg h0]
    simp only
    by_cases h1 : (retrieveState kb queryText topK minScore
        maxChars).selected.isEmpty
    · rw [if_pos h1]; norm_num
    · rw [if_neg h1]
      simp only
      refine ⟨?_, ?_, fun hms => ?_⟩
      · intro hsel
        rw [List.isEmpty_iff] at h1
        exact absurd hsel h1
      · intro _
        first | rfl | trivial
      · have hv0 : 0 ≤ 1 - Real.exp (-(0.35) *
            ((retrieveState kb queryText topK minScore maxChars).total /
              ((retrieveState kb queryText topK minScore
                maxChars).selected.length : ℝ))) := by
          have := hmean h1 hms
          have hexp : Real.exp (-(0.35) *
              ((retrieveState kb queryText topK minScore maxChars).total /
                ((retrieveState kb queryText topK minScore
                  maxChars).selected.length : ℝ))) ≤ 1 := by
            rw [show (1 : ℝ) = Real.exp 0 from (Real.exp_zero).symm]
            apply Real.exp_le_exp.mpr
            nlinarith
          linarith
        have hv1 : 1 - Real.exp (-(0.35) *
            ((retrieveState kb queryText topK minScore maxChars).total /
              ((retrieveState kb queryText topK minScore
                maxChars).selected.length : ℝ))) < 1 := by
          have := Real.exp_pos (-(0.35) *
            ((retrieveState kb queryText topK minScore maxChars).total /
              ((retrieveState kb queryText topK minScore
                maxChars).selected.length : ℝ)))
          linarith
        exact pyRound4_bounds hv0 hv1

/-- Chunk text with term frequencies 28, 28, 7, 7 over four two-letter
tokens (70 terms, 209 characters). -/
def qcText : List Char :=
  (String.intercalate (" ")
    (List.replicate 28 ("aa") ++ List.replicate 28 ("bb") ++
      List.replicate 7 ("cc") ++ List.replicate 7 ("dd"))).toList

/-- A chunk engineered so that its BM25 score against the four-token
query is exactly `(60/7) · ln(4/3)`. -/
def cQuad : Chunk :=
  { chunk_id := "c8"
    source := "s8"
    page := 0
    text := qcText
    tokens := {"aa", "bb", "cc", "dd"}
    termFreq := fun t =>
      if t = ("aa") then 28 else if t = ("bb") then 28
      else if t = ("cc") then 7 else if t = ("dd") then 7 else 0
    length := 70 }

/-- The one-chunk index over `cQuad`. -/
def kbQuad : KnowledgeBase := { chunks := [cQuad], images := [] }

/-- The four-token query for `kbQuad`. -/
def q8 : List Char := ("aa bb cc dd").toList

theorem avg_len_kbQuad : avg_len kbQuad = 70 := by
  unfold avg_len
  rw [show docCount kbQuad = 1 from rfl]
  norm_num [kbQuad, cQuad]

theorem bm25_kbQuad :
    bm25Score kbQuad ((tokenize_list q8).toFinset) cQuad
      = Real.log (4 / 3) * (60 / 7) := by
  unfold bm25Score
  rw [show (((tokenize_list q8).toFinset ∩ cQuad.tokens)).filter
      (fun t => 0 < cQuad.termFreq t)
    = ({"aa", "bb", "cc", "dd"} : Finset String) from by decide]
  rw [show ({"aa", "bb", "cc", "dd"} : Finset String)
    = insert ("aa") (insert ("bb") (insert ("cc") ({"dd"} : Finset String)))
    from rfl]
  rw [Finset.sum_insert (by decide), Finset.sum_insert (by decide),
    Finset.sum_insert (by decide), Finset.sum_singleton]
  have hidf4 : ∀ t : String, doc_freq kbQuad t = 1 →
      idf kbQuad t = Real.log (4 / 3) := by
    intro t ht
    unfold idf
    rw [ht, show docCount kbQuad = 1 from rfl]
    norm_num
  rw [hidf4 ("aa") (by decide), hidf4 ("bb") (by decide),
    hidf4 ("cc") (by decide), hidf4 ("dd") (by decide)]
  rw [show (cQuad.termFreq ("aa")) = 28 from rfl,
    show (cQuad.termFreq ("bb")) = 28 from rfl,
    show (cQuad.termFreq ("cc")) = 7 from rfl,
    show (cQuad.termFreq ("dd")) = 7 from rfl]
  rw [avg_len_kbQuad]
  rw [show (cQuad.length : ℝ) = 70 from by norm_num [cQuad]]
  rw [show max (1e-6 : ℝ) 70 = 70 from max_eq_right (by norm_num)]
  rw [show ((28 : ℤ) : ℝ) + 1.4 * (1 - 0.72 + 0.72 * 70 / 70) = 29.4 from by
    norm_num]
  rw [show ((7 : ℤ) : ℝ) + 1.4 * (1 - 0.72 + 0.72 * 70 / 70) = 8.4 from by
    norm_num]
  rw [show max (1e-6 : ℝ) 29.4 = 29.4 from max_eq_right (by norm_num)]
  rw [show max (1e-6 : ℝ) 8.4 = 8.4 from max_eq_right (by norm_num)]
  push_cast
  ring_nf

theorem scoredList_kbQuad :
    scoredList kbQuad q8 0 = [(Real.log (4 / 3) * (60 / 7), cQuad)] := by
  unfold scoredList
  rw [if_neg (by decide)]
  rw [show kbQuad.chunks = [cQuad] from rfl]
  rw [List.filterMap_cons, List.filterMap_nil]
  rw [if_pos (show (((tokenize_list q8).toFinset ∩ cQuad.tokens)).Nonempty
    from by decide)]
  rw [bm25_kbQuad]
  rw [if_pos (by positivity)]

theorem retrieveState_kbQuad :
    retrieveState kbQuad q8 1 0 100000 =
      pushState ⟨[], 0, 0, ∅⟩ (Real.log (4 / 3) * (60 / 7), cQuad)
        (pyStrip cQuad.text) := by
  unfold retrieveState
  rw [scoredList_kbQuad]
  rw [show (([(Real.log (4 / 3) * (60 / 7), cQuad)]).insertionSort
      fun a bb => bb.1 ≤ a.1)
    = [(Real.log (4 / 3) * (60 / 7), cQuad)] from rfl]
  rw [show ([(Real.log (4 / 3) * (60 / 7), cQuad)]).take (max 1 (1 * 6))
    = [(Real.log (4 / 3) * (60 / 7), cQuad)] from rfl]
  rw [selectLoop_push 1 100000 _ [] ⟨[], 0, 0, ∅⟩
    (by norm_num)
    (by rw [bestIdx_singleton]; decide)
    (by norm_num)
    (by rw [bestIdx_singleton]; norm_num; decide)]
  rw [bestIdx_singleton]
  rw [show (([(Real.log (4 / 3) * (60 / 7), cQuad)]).eraseIdx 0) = []
    from rfl]
  rw [selectLoop_nil]
  rfl

theorem quality_arg_kbQuad :
    1 - Real.exp (-(0.35) *
      ((retrieveState kbQuad q8 1 0 100000).total /
        ((retrieveState kbQuad q8 1 0 100000).selected.length : ℝ)))
      = 37 / 64 := by
  rw [retrieveState_kbQuad]
  rw [show (pushState ⟨[], 0, 0, ∅⟩ (Real.log (4 / 3) * (60 / 7), cQuad)
      (pyStrip cQuad.text)).total = 0 + Real.log (4 / 3) * (60 / 7) from rfl]
  rw [show ((pushState ⟨[], 0, 0, ∅⟩ (Real.log (4 / 3) * (60 / 7), cQuad)
      (pyStrip cQuad.text)).selected.length : ℝ) = 1 from by norm_num [pushState]]
  rw [show -(0.35 : ℝ) * ((0 + Real.log (4 / 3) * (60 / 7)) / 1)
    = -(((3 : ℕ) : ℝ) * Real.log (4 / 3)) from by push_cast; ring]
  rw [Real.exp_neg, Real.exp_nat_mul, Real.exp_log (by norm_num : (0 : ℝ) < 4 / 3)]
  norm_num

/-- Counterexample to claim C8 as stated: at a concrete index and query
the mean selected score is `(60/7)·ln(4/3)`, the formula value is
exactly 37/64 = 0.578125, but `retrieve` returns its 4-decimal rounding
0.5781 — and the two differ, so the returned quality does not equal
`1 − e^(−0.35·meanSelectedScore)`. -/
theorem claim_C8_counterexample :
    (retrieve kbQuad q8 1 0 100000).2 = 5781 / 10000 ∧
      1 - Real.exp (-(0.35) *
        ((retrieveState kbQuad q8 1 0 100000).total /
          ((retrieveState kbQuad q8 1 0 100000).selected.length : ℝ)))
        = 37 / 64 ∧
      (5781 / 10000 : ℝ) ≠ 37 / 64 := by
  refine ⟨?_, quality_arg_kbQuad, by norm_num⟩
  unfold retrieve
  rw [if_neg (show ¬ (scoredList kbQuad q8 0).isEmpty = true from by
    rw [scoredList_kbQuad]; decide)]
  simp only
  rw [if_neg (show ¬ (retrieveState kbQuad q8 1 0 100000).selected.isEmpty
      = true from by rw [retrieveState_kbQuad]; simp [pushState])]
  simp only
  rw [show (retrieveState kbQuad q8 1 0 100000).total /
      ((retrieveState kbQuad q8 1 0 100000).selected.length : ℝ)
    = 1 * ((retrieveState kbQuad q8 1 0 100000).total /
      ((retrieveState kbQuad q8 1 0 100000).selected.length : ℝ)) from by ring]
  have harg : -(0.35 : ℝ) *
      (1 * ((retrieveState kbQuad q8 1 0 100000).total /
        ((retrieveState kbQuad q8 1 0 100000).selected.length : ℝ)))
      = -(0.35) *
        ((retrieveState kbQuad q8 1 0 100000).total /
          ((retrieveState kbQuad q8 1 0 100000).selected.length : ℝ)) := by
    ring
  rw [harg]
  have hv : 1 - Real.exp (-(0.35) *
      ((retrieveState kbQuad q8 1 0 100000).total /
        ((retrieveState kbQuad q8 1 0 100000).selected.length : ℝ)))
      = 37 / 64 := quality_arg_kbQuad
  rw [hv]
  unfold pyRound4 pyRoundHalfEven
  rw [show (37 / 64 : ℝ) * 10 ^ 4 = 23125 / 4 from by norm_num]
  have hfl : ⌊(23125 / 4 : ℝ)⌋ = 5781 := by
    rw [Int.floor_eq_iff] <;> norm_num
  rw [if_neg (show ¬ Int.fract (23125 / 4 : ℝ) = 1 / 2 from by
    rw [Int.fract, hfl]; norm_num)]
  rw [round_eq]
  rw [show (23125 / 4 : ℝ) + 1 / 2 = 23127 / 4 from by norm_num]
  rw [show ⌊(23127 / 4 : ℝ)⌋ = 5781 from by rw [Int.floor_eq_iff] <;> norm_num]
  norm_num

/-- Witness for (amended) claim C8 at the concrete index `kbQuad`. -/
theorem claim_C8_witness :
    (retrieve kbQuad q8 1 0 100000).2 =
      pyRound4 (1 - Real.exp (-(0.35) *
        ((retrieveState kbQuad q8 1 0 100000).total /
          ((retrieveState kbQuad q8 1 0 100000).selected.length : ℝ)))) ∧
      0 ≤ (retrieve kbQuad q8 1 0 100000).2 ∧
      (retrieve kbQuad q8 1 0 100000).2 ≤ 1 := by
  have hne : (retrieve kbQuad q8 1 0 100000).1 ≠ [] := by
    unfold retrieve
    rw [if_neg (show ¬ (scoredList kbQuad q8 0).isEmpty = true from by
      rw [scoredList_kbQuad]; decide)]
    simp only
    rw [if_neg (show ¬ (retrieveState kbQuad q8 1 0 100000).selected.isEmpty
        = true from by rw [retrieveState_kbQuad]; simp [pushState])]
    simp only
    rw [retrieveState_kbQuad]
    simp [pushState]
  exact ⟨(claim_C8_quality kbQuad q8 1 0 100000).2.1 hne,
    ((claim_C8_quality kbQuad q8 1 0 100000).2.2 le_rfl).1,
    ((claim_C8_quality kbQuad q8 1 0 100000).2.2 le_rfl).2⟩

/-! ## Claim C1: source diversity of the greedy selection. -/

/-- The running best value dominates every scanned value and the start
value. -/
theorem bestAux_fst_ge (sources : Finset String) :
    ∀ (cs : List (ℝ × Chunk)) (i : ℕ) (bv : ℝ) (bi : ℕ),
      bv ≤ (bestAux sources cs i bv bi).1 ∧
        ∀ p ∈ cs, selValue sources p ≤ (bestAux sources cs i bv bi).1 := by
  intro cs
  induction cs with
  | nil => intro i bv bi; exact ⟨le_refl _, by simp⟩
  | cons q rest ih =>
    intro i bv bi
    rw [bestAux]
    by_cases h : bv < selValue sources q
    · rw [if_pos h]
      obtain ⟨h1, h2⟩ := ih (i + 1) (selValue sources q) i
      refine ⟨le_trans (le_of_lt h) h1, ?_⟩
      intro p hp
      rcases List.mem_cons.mp hp with rfl | hp
      · exact h1
      · exact h2 p hp
    · rw [if_neg h]
      obtain ⟨h1, h2⟩ := ih (i + 1) bv bi
      refine ⟨h1, ?_⟩
      intro p hp
      rcases List.mem_cons.mp hp with rfl | hp
      · exact le_trans (not_lt.mp h) h1
      · exact h2 p hp

/-- The scan result is either the unchanged start pair or a position in
the list achieving the final best value. -/
theorem bestAux_achieves (sources : Finset String) :
    ∀ (cs : List (ℝ × Chunk)) (i : ℕ) (bv : ℝ) (bi : ℕ),
      ((bestAux sources cs i bv bi).2 = bi ∧
        (bestAux sources cs i bv bi).1 = bv) ∨
      ∃ k, k < cs.length ∧ (bestAux sources cs i bv bi).2 = i + k ∧
        (bestAux sources cs i bv bi).1 =
          selValue sources (cs.getD k (0, default)) := by
  intro cs
  induction cs with
  | nil => intro i bv bi; left; exact ⟨rfl, rfl⟩
  | cons q rest ih =>
    intro i bv bi
    rw [bestAux]
    by_cases h : bv < selValue sources q
    · rw [if_pos h]
      rcases ih (i + 1) (selValue sources q) i with ⟨h1, h2⟩ | ⟨k, hk, h1, h2⟩
      · right
        exact ⟨0, by simp, by simpa using h1, by simpa using h2⟩
      · right
        refine ⟨k + 1, by simpa using hk, by omega, by simpa using h2⟩
    · rw [if_neg h]
      rcases ih (i + 1) bv bi with ⟨h1, h2⟩ | ⟨k, hk, h1, h2⟩
      · left; exact ⟨h1, h2⟩
      · right
        refine ⟨k + 1, by simpa using hk, by omega, by simpa using h2⟩

/-- When some candidate beats the `-1e9` start value, the scan picks a
candidate of maximal value. -/
theorem bestIdx_max (sources : Finset String) (cs : List (ℝ × Chunk))
    (hval : ∃ p ∈ cs, -(10 ^ 9 : ℝ) < selValue sources p) :
    ∀ p ∈ cs, selValue sources p ≤
      selValue sources (cs.getD (bestIdx sources cs) (0, default)) := by
  obtain ⟨q, hq, hqv⟩ := hval
  have hge := bestAux_fst_ge sources cs 0 (-(10 ^ 9)) 0
  rcases bestAux_achieves sources cs 0 (-(10 ^ 9)) 0 with ⟨h1, h2⟩ | ⟨k, hk, h1, h2⟩
  · exact absurd (lt_of_lt_of_le hqv (by rw [← h2]; exact hge.2 q hq))
      (lt_irrefl _)
  · intro p hp
    rw [bestIdx, h1]
    have h0k : 0 + k = k := by omega
    rw [h0k, ← h2]
    exact hge.2 p hp

/-- An element different from the erased one survives `eraseIdx`. -/
theorem mem_eraseIdx_of_ne {α : Type} {l : List α} {i : ℕ}
    (hi : i < l.length) {a : α} (ha : a ∈ l) (hne : a ≠ l[i]) :
    a ∈ l.eraseIdx i := by
  rw [List.eraseIdx_eq_take_drop_succ]
  have hdecomp : l = l.take i ++ l[i] :: l.drop (i + 1) := by
    conv_lhs => rw [← List.take_append_drop i l]
    rw [List.drop_eq_getElem_cons hi]
  rw [hdecomp] at ha
  rcases List.mem_append.mp ha with h | h
  · exact List.mem_append.mpr (Or.inl h)
  · rcases List.mem_cons.mp h with rfl | h
    · exact absurd rfl hne
    · exact List.mem_append.mpr (Or.inr h)

/-- Claim C1 (amended): the 0.12 diversity bonus forces a second source
only when the candidate scores are close. With `topK ≥ 2`, all scored
candidates drawn from exactly two sources `A ≠ B` that are both present,
a nonnegative score floor, every pair of candidate scores within 0.12 of
each other, nonempty stripped texts, and a budget large enough for any
two snippets, the selected evidence contains both sources. Without the
score-spread bound the original claim fails (see the counterexample): a
score gap above 0.12 lets one source take every slot. -/
theorem claim_C1_diversity (kb : KnowledgeBase) (queryText : List Char)
    (topK : ℕ) (minScore : ℝ) (maxChars : ℕ) (A B : String)
    (htopK : 2 ≤ topK)
    (hlen : (scoredList kb queryText minScore).length ≤ topK * 6)
    (hms : 0 ≤ minScore)
    (hAB : A ≠ B)
    (hsrc : ∀ p ∈ scoredList kb queryText minScore,
      p.2.source = A ∨ p.2.source = B)
    (hA : ∃ p ∈ scoredList kb queryText minScore, p.2.source = A)
    (hB : ∃ p ∈ scoredList kb queryText minScore, p.2.source = B)
    (hspread : ∀ p ∈ scoredList kb queryText minScore,
      ∀ q ∈ scoredList kb queryText minScore, p.1 < q.1 + 0.12)
    (hnz : ∀ p ∈ scoredList kb queryText minScore, pyStrip p.2.text ≠ [])
    (hbudget : ∀ p ∈ scoredList kb queryText minScore,
      ∀ q ∈ scoredList kb queryText minScore,
        (pyStrip p.2.text).length + (pyStrip q.2.text).length ≤ maxChars) :
    A ∈ (retrieve kb queryText topK minScore maxChars).1.map Evidence.source ∧
    B ∈ (retrieve kb queryText topK minScore maxChars).1.map Evidence.source := by
  obtain ⟨pa, hpaL, hpaA⟩ := hA
  obtain ⟨pb, hpbL, hpbB⟩ := hB
  have hmemS : ∀ p : ℝ × Chunk,
      p ∈ (scoredList kb queryText minScore).insertionSort
        (fun a bb => bb.1 ≤ a.1) ↔ p ∈ scoredList kb queryText minScore :=
    fun p => (List.perm_insertionSort _ _).mem_iff
  have hSne : (scoredList kb queryText minScore).insertionSort
      (fun a bb => bb.1 ≤ a.1) ≠ [] := by
    intro h
    have hx := (hmemS pa).mpr hpaL
    rw [h] at hx
    cases hx
  obtain ⟨c0, cs0, hS⟩ := List.exists_cons_of_ne_nil hSne
  have hmem0 : ∀ p : ℝ × Chunk, p ∈ c0 :: cs0 ↔
      p ∈ scoredList kb queryText minScore := by
    intro p
    rw [← hS]
    exact hmemS p
  have htake : (((scoredList kb queryText minScore).insertionSort
      fun a bb => bb.1 ≤ a.1)).take (max 1 (topK * 6)) =
      ((scoredList kb queryText minScore).insertionSort
        fun a bb => bb.1 ≤ a.1) := by
    apply List.take_of_length_le
    rw [List.length_insertionSort]
    exact le_trans hlen (le_max_right _ _)
  have hstate : retrieveState kb queryText topK minScore maxChars =
      selectLoop topK maxChars (c0 :: cs0) ⟨[], 0, 0, ∅⟩ := by
    unfold retrieveState
    rw [htake, hS]
  -- first pick
  have hb1lt : bestIdx ∅ (c0 :: cs0) < (c0 :: cs0).length :=
    bestIdx_lt ∅ (c0 :: cs0) (by simp)
  obtain ⟨p1, hp1⟩ :
      ∃ p, (c0 :: cs0).getD (bestIdx ∅ (c0 :: cs0)) (0, default) = p :=
    ⟨_, rfl⟩
  have hp1idx : (c0 :: cs0)[bestIdx ∅ (c0 :: cs0)] = p1 := by
    rw [← hp1, List.getD_eq_getElem?_getD, List.getElem?_eq_getElem hb1lt]
    rfl
  have hp1mem : p1 ∈ c0 :: cs0 := by
    rw [← hp1idx]
    exact List.getElem_mem _
  have hp1L : p1 ∈ scoredList kb queryText minScore := (hmem0 p1).mp hp1mem
  have hlen1pos : 0 < (pyStrip p1.2.text).length :=
    List.length_pos.mpr (hnz _ hp1L)
  have hbud11 : (pyStrip p1.2.text).length + (pyStrip p1.2.text).length
      ≤ maxChars := hbudget _ hp1L _ hp1L
  have hg1 : ¬ topK ≤ ([] : List Evidence).length := by
    simp only [List.length_nil]
    omega
  have hg2 : pyStrip ((c0 :: cs0).getD (bestIdx ∅ (c0 :: cs0))
      (0, default)).2.text ≠ [] := by
    rw [hp1]
    exact hnz _ hp1L
  have hg3 : ¬ (maxChars : ℤ) - ((0 : ℕ) : ℤ) ≤ 0 := by omega
  have hg4 : ((pyStrip ((c0 :: cs0).getD (bestIdx ∅ (c0 :: cs0))
      (0, default)).2.text).length : ℤ) ≤ (maxChars : ℤ) - ((0 : ℕ) : ℤ) := by
    rw [hp1]
    omega
  have hstep1 : selectLoop topK maxChars (c0 :: cs0) ⟨[], 0, 0, ∅⟩ =
      selectLoop topK maxChars
        ((c0 :: cs0).eraseIdx (bestIdx ∅ (c0 :: cs0)))
        (pushState ⟨[], 0, 0, ∅⟩
          ((c0 :: cs0).getD (bestIdx ∅ (c0 :: cs0)) (0, default))
          (pyStrip ((c0 :: cs0).getD (bestIdx ∅ (c0 :: cs0))
            (0, default)).2.text)) :=
    selectLoop_push topK maxChars c0 cs0 ⟨[], 0, 0, ∅⟩ hg1 hg2 hg3 hg4
  rw [hp1] at hstep1
  -- a candidate from the other source survives the erase
  obtain ⟨y, hyL, hySne⟩ : ∃ y ∈ scoredList kb queryText minScore,
      y.2.source ≠ p1.2.source := by
    rcases hsrc _ hp1L with hX | hX
    · exact ⟨pb, hpbL, by rw [hpbB, hX]; exact hAB.symm⟩
    · exact ⟨pa, hpaL, by rw [hpaA, hX]; exact hAB⟩
  have hyS : y ∈ c0 :: cs0 := (hmem0 y).mpr hyL
  have hyrest : y ∈ (c0 :: cs0).eraseIdx (bestIdx ∅ (c0 :: cs0)) := by
    refine mem_eraseIdx_of_ne hb1lt hyS ?_
    rw [hp1idx]
    intro h
    exact hySne (by rw [h])
  have hrestne : (c0 :: cs0).eraseIdx (bestIdx ∅ (c0 :: cs0)) ≠ [] := by
    intro h
    rw [h] at hyrest
    cases hyrest
  obtain ⟨c1, cs1, hrest⟩ := List.exists_cons_of_ne_nil hrestne
  -- second pick
  have hb2lt : bestIdx (insert p1.2.source ∅) (c1 :: cs1) <
      (c1 :: cs1).length := bestIdx_lt _ _ (by simp)
  obtain ⟨p2, hp2⟩ : ∃ p, (c1 :: cs1).getD
      (bestIdx (insert p1.2.source ∅) (c1 :: cs1)) (0, default) = p :=
    ⟨_, rfl⟩
  have hp2mem : p2 ∈ c1 :: cs1 := by
    rw [← hp2, List.getD_eq_getElem?_getD, List.getElem?_eq_getElem hb2lt]
    exact List.getElem_mem _
  have hp2S : p2 ∈ c0 :: cs0 := by
    have hx : p2 ∈ (c0 :: cs0).eraseIdx (bestIdx ∅ (c0 :: cs0)) := by
      rw [hrest]
      exact hp2mem
    exact (List.eraseIdx_sublist _ _).subset hx
  have hp2L : p2 ∈ scoredList kb queryText minScore := (hmem0 p2).mp hp2S
  have hyc1 : y ∈ c1 :: cs1 := by
    rw [← hrest]
    exact hyrest
  have hynotin : y.2.source ∉ insert p1.2.source (∅ : Finset String) := by
    intro hmem
    rcases Finset.mem_insert.mp hmem with h | h
    · exact hySne h
    · exact absurd h (Finset.not_mem_empty _)
  have hyval : selValue (insert p1.2.source ∅) y = y.1 + 0.12 := by
    unfold selValue
    rw [if_pos hynotin]
  have hymin : minScore ≤ y.1 := scoredList_min_le kb queryText minScore y hyL
  have hvalpos : -(10 ^ 9 : ℝ) < selValue (insert p1.2.source ∅) y := by
    rw [hyval]
    linarith
  have hmax := bestIdx_max (insert p1.2.source ∅) (c1 :: cs1) ⟨y, hyc1, hvalpos⟩
  rw [hp2] at hmax
  have hp2ne : p2.2.source ≠ p1.2.source := by
    intro heq
    have hin : p2.2.source ∈ insert p1.2.source (∅ : Finset String) := by
      rw [heq]
      exact Finset.mem_insert_self _ _
    have hval2 : selValue (insert p1.2.source ∅) p2 = p2.1 := by
      unfold selValue
      rw [if_neg (not_not_intro hin), add_zero]
    have hle := hmax y hyc1
    rw [hyval, hval2] at hle
    have hlt := hspread p2 hp2L y hyL
    linarith
  -- second step of the loop
  have hlen2pos : 0 < (pyStrip p2.2.text).length :=
    List.length_pos.mpr (hnz _ hp2L)
  have hbud12 : (pyStrip p1.2.text).length + (pyStrip p2.2.text).length
      ≤ maxChars := hbudget _ hp1L _ hp2L
  have hg1b : ¬ topK ≤ (1 : ℕ) := by omega
  have hg2b : pyStrip ((c1 :: cs1).getD
      (bestIdx (insert p1.2.source ∅) (c1 :: cs1)) (0, default)).2.text
      ≠ [] := by
    rw [hp2]
    exact hnz _ hp2L
  have hg3b : ¬ (maxChars : ℤ) -
      ((0 + (pyStrip p1.2.text).length : ℕ) : ℤ) ≤ 0 := by omega
  have hg4b : ((pyStrip ((c1 :: cs1).getD
      (bestIdx (insert p1.2.source ∅) (c1 :: cs1)) (0, default)).2.text).length
        : ℤ) ≤ (maxChars : ℤ) - ((0 + (pyStrip p1.2.text).length : ℕ) : ℤ) := by
    rw [hp2]
    omega
  have hstep2 : selectLoop topK maxChars (c1 :: cs1)
      (pushState ⟨[], 0, 0, ∅⟩ p1 (pyStrip p1.2.text)) =
      selectLoop topK maxChars
        ((c1 :: cs1).eraseIdx (bestIdx (insert p1.2.source ∅) (c1 :: cs1)))
        (pushState (pushState ⟨[], 0, 0, ∅⟩ p1 (pyStrip p1.2.text))
          ((c1 :: cs1).getD (bestIdx (insert p1.2.source ∅) (c1 :: cs1))
            (0, default))
          (pyStrip ((c1 :: cs1).getD
            (bestIdx (insert p1.2.source ∅) (c1 :: cs1)) (0, default)).2.text)) :=
    selectLoop_push topK maxChars c1 cs1
      (pushState ⟨[], 0, 0, ∅⟩ p1 (pyStrip p1.2.text)) hg1b hg2b hg3b hg4b
  rw [hp2] at hstep2
  have hfinal : retrieveState kb queryText topK minScore maxChars =
      selectLoop topK maxChars
        ((c1 :: cs1).eraseIdx (bestIdx (insert p1.2.source ∅) (c1 :: cs1)))
        (pushState (pushState ⟨[], 0, 0, ∅⟩ p1 (pyStrip p1.2.text)) p2
          (pyStrip p2.2.text)) := by
    rw [hstate, hstep1, hrest, hstep2]
  -- both pushed rows survive to the final selection
  have hprefix := selectLoop_prefix topK maxChars
    ((c1 :: cs1).eraseIdx (bestIdx (insert p1.2.source ∅) (c1 :: cs1)))
    (pushState (pushState ⟨[], 0, 0, ∅⟩ p1 (pyStrip p1.2.text)) p2
      (pyStrip p2.2.text))
  have he1 : ({ chunkId := p1.2.chunk_id
                source := p1.2.source
                page := p1.2.page
                score := pyRound4 p1.1
                text := pyStrip p1.2.text } : Evidence) ∈
      (pushState (pushState ⟨[], 0, 0, ∅⟩ p1 (pyStrip p1.2.text)) p2
        (pyStrip p2.2.text)).selected :=
    List.mem_cons_self _ _
  have he2 : ({ chunkId := p2.2.chunk_id
                source := p2.2.source
                page := p2.2.page
                score := pyRound4 p2.1
                text := pyStrip p2.2.text } : Evidence) ∈
      (pushState (pushState ⟨[], 0, 0, ∅⟩ p1 (pyStrip p1.2.text)) p2
        (pyStrip p2.2.text)).selected :=
    List.mem_cons_of_mem _ (List.mem_cons_self _ _)
  have he1f := hprefix.sublist.subset he1
  have he2f := hprefix.sublist.subset he2
  -- unfold retrieve
  have hLneE : ¬ (scoredList kb queryText minScore).isEmpty = true := by
    rw [List.isEmpty_iff]
    intro h
    rw [h] at hpaL
    cases hpaL
  have hselneE : ¬ (retrieveState kb queryText topK minScore
      maxChars).selected.isEmpty = true := by
    rw [List.isEmpty_iff, hfinal]
    intro h
    rw [h] at he1f
    cases he1f
  have hres : (retrieve kb queryText topK minScore maxChars).1 =
      (retrieveState kb queryText topK minScore maxChars).selected := by
    unfold retrieve
    rw [if_neg hLneE]
    simp only
    rw [if_neg hselneE]
  rw [hres, hfinal]
  rcases hsrc _ hp1L with hX | hX
  · have hp2B : p2.2.source = B := by
      rcases hsrc _ hp2L with h | h
      · exact absurd (h.trans hX.symm) hp2ne
      · exact h
    constructor
    · exact List.mem_map.mpr ⟨_, he1f, hX⟩
    · exact List.mem_map.mpr ⟨_, he2f, hp2B⟩
  · have hp2A : p2.2.source = A := by
      rcases hsrc _ hp2L with h | h
      · exact h
      · exact absurd (h.trans hX.symm) hp2ne
    constructor
    · exact List.mem_map.mpr ⟨_, he2f, hp2A⟩
    · exact List.mem_map.mpr ⟨_, he1f, hX⟩

/-! ## Claim C1, counterexample index: a score gap above the bonus. -/

/-- First high-scoring chunk of source `s1`. -/
def c11 : Chunk :=
  { chunk_id := "c11"
    source := "s1"
    page := 0
    text := ("aa aa aa aa aa aa aa").toList
    tokens := {"aa"}
    termFreq := fun t => if t = ("aa") then 7 else 0
    length := 7 }

/-- Second high-scoring chunk of source `s1`. -/
def c12 : Chunk :=
  { chunk_id := "c12"
    source := "s1"
    page := 0
    text := ("aa aa aa aa aa aa aa").toList
    tokens := {"aa"}
    termFreq := fun t => if t = ("aa") then 7 else 0
    length := 7 }

/-- First low-scoring chunk of source `s2`. -/
def c21 : Chunk :=
  { chunk_id := "c21"
    source := "s2"
    page := 0
    text := ("bb cc dd ee ff gg hh").toList
    tokens := {"bb"}
    termFreq := fun t => if t = ("bb") then 1 else 0
    length := 7 }

/-- Second low-scoring chunk of source `s2`. -/
def c22 : Chunk :=
  { chunk_id := "c22"
    source := "s2"
    page := 0
    text := ("bb cc dd ee ff gg hh").toList
    tokens := {"bb"}
    termFreq := fun t => if t = ("bb") then 1 else 0
    length := 7 }

/-- The four-chunk, two-source index. -/
def kbC1 : KnowledgeBase := { chunks := [c11, c12, c21, c22], images := [] }

/-- The query hitting both sources. -/
def qC1 : List Char := ("aa bb").toList

theorem avg_len_kbC1 : avg_len kbC1 = 7 := by
  unfold avg_len
  rw [show docCount kbC1 = 4 from rfl]
  norm_num [kbC1, c11, c12, c21, c22]

theorem idf_kbC1 (t : String) (h : doc_freq kbC1 t = 2) :
    idf kbC1 t = Real.log 2 := by
  unfold idf
  rw [h, show docCount kbC1 = 4 from rfl]
  norm_num

theorem bm25_kbC1_s1 (c : Chunk)
    (hset : (((tokenize_list qC1).toFinset ∩ c.tokens)).filter
      (fun t => 0 < c.termFreq t) = {("aa")})
    (htf : c.termFreq ("aa") = 7)
    (hlenc : ((c.length : ℤ) : ℝ) = 7) :
    bm25Score kbC1 ((tokenize_list qC1).toFinset) c = Real.log 2 * 2 := by
  rw [bm25_single kbC1 _ c ("aa") hset]
  rw [idf_kbC1 ("aa") (by decide)]
  rw [htf, hlenc, avg_len_kbC1]
  rw [show max (1e-6 : ℝ) 7 = 7 from max_eq_right (by norm_num)]
  rw [show ((7 : ℤ) : ℝ) + 1.4 * (1 - 0.72 + 0.72 * 7 / 7) = 8.4 from by
    norm_num]
  rw [show max (1e-6 : ℝ) 8.4 = 8.4 from max_eq_right (by norm_num)]
  norm_num

theorem bm25_kbC1_s2 (c : Chunk)
    (hset : (((tokenize_list qC1).toFinset ∩ c.tokens)).filter
      (fun t => 0 < c.termFreq t) = {("bb")})
    (htf : c.termFreq ("bb") = 1)
    (hlenc : ((c.length : ℤ) : ℝ) = 7) :
    bm25Score kbC1 ((tokenize_list qC1).toFinset) c = Real.log 2 * 1 := by
  rw [bm25_single kbC1 _ c ("bb") hset]
  rw [idf_kbC1 ("bb") (by decide)]
  rw [htf, hlenc, avg_len_kbC1]
  rw [show max (1e-6 : ℝ) 7 = 7 from max_eq_right (by norm_num)]
  rw [show ((1 : ℤ) : ℝ) + 1.4 * (1 - 0.72 + 0.72 * 7 / 7) = 2.4 from by
    norm_num]
  rw [show max (1e-6 : ℝ) 2.4 = 2.4 from max_eq_right (by norm_num)]
  norm_num

theorem scoredList_kbC1 :
    scoredList kbC1 qC1 0 =
      [(Real.log 2 * 2, c11), (Real.log 2 * 2, c12),
        (Real.log 2 * 1, c21), (Real.log 2 * 1, c22)] := by
  unfold scoredList
  rw [if_neg (by decide)]
  rw [show kbC1.chunks = [c11, c12, c21, c22] from rfl]
  rw [List.filterMap_cons, List.filterMap_cons, List.filterMap_cons,
    List.filterMap_cons, List.filterMap_nil]
  rw [if_pos (show (((tokenize_list qC1).toFinset ∩ c11.tokens)).Nonempty
    from by decide)]
  rw [bm25_kbC1_s1 c11 (by decide) (by decide) (by norm_num [c11])]
  rw [if_pos (show (0 : ℝ) ≤ Real.log 2 * 2 from by positivity)]
  rw [if_pos (show (((tokenize_list qC1).toFinset ∩ c12.tokens)).Nonempty
    from by decide)]
  rw [bm25_kbC1_s1 c12 (by decide) (by decide) (by norm_num [c12])]
  rw [if_pos (show (0 : ℝ) ≤ Real.log 2 * 2 from by positivity)]
  rw [if_pos (show (((tokenize_list qC1).toFinset ∩ c21.tokens)).Nonempty
    from by decide)]
  rw [bm25_kbC1_s2 c21 (by decide) (by decide) (by norm_num [c21])]
  rw [if_pos (show (0 : ℝ) ≤ Real.log 2 * 1 from by positivity)]
  rw [if_pos (show (((tokenize_list qC1).toFinset ∩ c22.tokens)).Nonempty
    from by decide)]
  rw [bm25_kbC1_s2 c22 (by decide) (by decide) (by norm_num [c22])]
  rw [if_pos (show (0 : ℝ) ≤ Real.log 2 * 1 from by positivity)]

theorem sorted_kbC1 :
    (([(Real.log 2 * 2, c11), (Real.log 2 * 2, c12),
        (Real.log 2 * 1, c21), (Real.log 2 * 1, c22)]).insertionSort
      fun a bb => bb.1 ≤ a.1)
    = [(Real.log 2 * 2, c11), (Real.log 2 * 2, c12),
        (Real.log 2 * 1, c21), (Real.log 2 * 1, c22)] := by
  have hL : (0 : ℝ) < Real.log 2 := Real.log_pos (by norm_num)
  rw [show (([(Real.log 2 * 2, c11), (Real.log 2 * 2, c12),
        (Real.log 2 * 1, c21), (Real.log 2 * 1, c22)]).insertionSort
      fun a bb => bb.1 ≤ a.1)
    = List.orderedInsert (fun a bb => bb.1 ≤ a.1) (Real.log 2 * 2, c11)
        (List.orderedInsert (fun a bb => bb.1 ≤ a.1) (Real.log 2 * 2, c12)
          (List.orderedInsert (fun a bb => bb.1 ≤ a.1) (Real.log 2 * 1, c21)
            [(Real.log 2 * 1, c22)])) from rfl]
  rw [show List.orderedInsert (fun a bb : ℝ × Chunk => bb.1 ≤ a.1)
      (Real.log 2 * 1, c21) [(Real.log 2 * 1, c22)]
    = [(Real.log 2 * 1, c21), (Real.log 2 * 1, c22)] from by
    rw [List.orderedInsert, if_pos]
    exact le_rfl]
  rw [show List.orderedInsert (fun a bb : ℝ × Chunk => bb.1 ≤ a.1)
      (Real.log 2 * 2, c12)
      [(Real.log 2 * 1, c21), (Real.log 2 * 1, c22)]
    = [(Real.log 2 * 2, c12), (Real.log 2 * 1, c21), (Real.log 2 * 1, c22)]
    from by
    rw [List.orderedInsert, if_pos]
    show Real.log 2 * 1 ≤ Real.log 2 * 2
    linarith]
  rw [List.orderedInsert, if_pos]
  show Real.log 2 * 2 ≤ Real.log 2 * 2
  exact le_rfl

theorem bestIdx_kbC1_first (S : Finset String)
    (h1 : c11.source ∉ S) (h2 : c12.source ∉ S)
    (h3 : c21.source ∉ S) (h4 : c22.source ∉ S) :
    bestIdx S [(Real.log 2 * 2, c11), (Real.log 2 * 2, c12),
      (Real.log 2 * 1, c21), (Real.log 2 * 1, c22)] = 0 := by
  have hL : (0 : ℝ) < Real.log 2 := Real.log_pos (by norm_num)
  have hv1 : selValue S (Real.log 2 * 2, c11) = Real.log 2 * 2 + 0.12 := by
    unfold selValue
    rw [if_pos h1]
  have hv2 : selValue S (Real.log 2 * 2, c12) = Real.log 2 * 2 + 0.12 := by
    unfold selValue
    rw [if_pos h2]
  have hv3 : selValue S (Real.log 2 * 1, c21) = Real.log 2 * 1 + 0.12 := by
    unfold selValue
    rw [if_pos h3]
  have hv4 : selValue S (Real.log 2 * 1, c22) = Real.log 2 * 1 + 0.12 := by
    unfold selValue
    rw [if_pos h4]
  unfold bestIdx
  rw [bestAux, if_pos (show -(10 ^ 9 : ℝ) <
      selValue S (Real.log 2 * 2, c11) from by
    rw [hv1]; linarith)]
  rw [bestAux, if_neg (show ¬ selValue S (Real.log 2 * 2, c11) <
      selValue S (Real.log 2 * 2, c12) from by
    rw [hv1, hv2]; exact lt_irrefl _)]
  rw [bestAux, if_neg (show ¬ selValue S (Real.log 2 * 2, c11) <
      selValue S (Real.log 2 * 1, c21) from by
    rw [hv1, hv3]; exact not_lt.mpr (by linarith))]
  rw [bestAux, if_neg (show ¬ selValue S (Real.log 2 * 2, c11) <
      selValue S (Real.log 2 * 1, c22) from by
    rw [hv1, hv4]; exact not_lt.mpr (by linarith))]
  rw [bestAux]

theorem bestIdx_kbC1_second (S : Finset String)
    (h2 : c12.source ∈ S) (h3 : c21.source ∉ S) (h4 : c22.source ∉ S) :
    bestIdx S [(Real.log 2 * 2, c12), (Real.log 2 * 1, c21),
      (Real.log 2 * 1, c22)] = 0 := by
  have hL : (0.6931471803 : ℝ) < Real.log 2 := Real.log_two_gt_d9
  have hv2 : selValue S (Real.log 2 * 2, c12) = Real.log 2 * 2 + 0 := by
    unfold selValue
    rw [if_neg (not_not_intro h2)]
  have hv3 : selValue S (Real.log 2 * 1, c21) = Real.log 2 * 1 + 0.12 := by
    unfold selValue
    rw [if_pos h3]
  have hv4 : selValue S (Real.log 2 * 1, c22) = Real.log 2 * 1 + 0.12 := by
    unfold selValue
    rw [if_pos h4]
  unfold bestIdx
  rw [bestAux, if_pos (show -(10 ^ 9 : ℝ) <
      selValue S (Real.log 2 * 2, c12) from by
    rw [hv2]; linarith)]
  rw [bestAux, if_neg (show ¬ selValue S (Real.log 2 * 2, c12) <
      selValue S (Real.log 2 * 1, c21) from by
    rw [hv2, hv3]; exact not_lt.mpr (by linarith))]
  rw [bestAux, if_neg (show ¬ selValue S (Real.log 2 * 2, c12) <
      selValue S (Real.log 2 * 1, c22) from by
    rw [hv2, hv4]; exact not_lt.mpr (by linarith))]
  rw [bestAux]

theorem retrieveState_kbC1 :
    retrieveState kbC1 qC1 2 0 100000 =
      pushState
        (pushState ⟨[], 0, 0, ∅⟩ (Real.log 2 * 2, c11) (pyStrip c11.text))
        (Real.log 2 * 2, c12) (pyStrip c12.text) := by
  unfold retrieveState
  rw [scoredList_kbC1, sorted_kbC1]
  rw [show ([(Real.log 2 * 2, c11), (Real.log 2 * 2, c12),
      (Real.log 2 * 1, c21), (Real.log 2 * 1, c22)]).take (max 1 (2 * 6))
    = [(Real.log 2 * 2, c11), (Real.log 2 * 2, c12),
        (Real.log 2 * 1, c21), (Real.log 2 * 1, c22)] from rfl]
  rw [selectLoop_push 2 100000 (Real.log 2 * 2, c11)
    [(Real.log 2 * 2, c12), (Real.log 2 * 1, c21), (Real.log 2 * 1, c22)]
    ⟨[], 0, 0, ∅⟩
    (by decide)
    (by
      rw [bestIdx_kbC1_first ((⟨[], 0, 0, ∅⟩ : SelState).sources)
        (by decide) (by decide) (by decide) (by decide)]
      decide)
    (by decide)
    (by
      rw [bestIdx_kbC1_first ((⟨[], 0, 0, ∅⟩ : SelState).sources)
        (by decide) (by decide) (by decide) (by decide)]
      decide)]
  rw [bestIdx_kbC1_first ((⟨[], 0, 0, ∅⟩ : SelState).sources)
    (by decide) (by decide) (by decide) (by decide)]
  rw [show ([(Real.log 2 * 2, c11), (Real.log 2 * 2, c12),
      (Real.log 2 * 1, c21), (Real.log 2 * 1, c22)]).eraseIdx 0
    = [(Real.log 2 * 2, c12), (Real.log 2 * 1, c21), (Real.log 2 * 1, c22)]
    from rfl]
  rw [show ([(Real.log 2 * 2, c11), (Real.log 2 * 2, c12),
      (Real.log 2 * 1, c21), (Real.log 2 * 1, c22)]).getD 0 (0, default)
    = (Real.log 2 * 2, c11) from rfl]
  rw [show ((Real.log 2 * 2, c11) : ℝ × Chunk).2.text = c11.text from rfl]
  rw [selectLoop_push 2 100000 (Real.log 2 * 2, c12)
    [(Real.log 2 * 1, c21), (Real.log 2 * 1, c22)]
    (pushState ⟨[], 0, 0, ∅⟩ (Real.log 2 * 2, c11) (pyStrip c11.text))
    (by decide)
    (by
      rw [bestIdx_kbC1_second ((pushState ⟨[], 0, 0, ∅⟩
          (Real.log 2 * 2, c11) (pyStrip c11.text)).sources)
        (by decide) (by decide) (by decide)]
      decide)
    (by decide)
    (by
      rw [bestIdx_kbC1_second ((pushState ⟨[], 0, 0, ∅⟩
          (Real.log 2 * 2, c11) (pyStrip c11.text)).sources)
        (by decide) (by decide) (by decide)]
      decide)]
  rw [bestIdx_kbC1_second ((pushState ⟨[], 0, 0, ∅⟩
      (Real.log 2 * 2, c11) (pyStrip c11.text)).sources)
    (by decide) (by decide) (by decide)]
  rw [show ([(Real.log 2 * 2, c12), (Real.log 2 * 1, c21),
      (Real.log 2 * 1, c22)]).eraseIdx 0
    = [(Real.log 2 * 1, c21), (Real.log 2 * 1, c22)] from rfl]
  rw [show ([(Real.log 2 * 2, c12), (Real.log 2 * 1, c21),
      (Real.log 2 * 1, c22)]).getD 0 (0, default)
    = (Real.log 2 * 2, c12) from rfl]
  rw [show ((Real.log 2 * 2, c12) : ℝ × Chunk).2.text = c12.text from rfl]
  rw [selectLoop_full 2 100000 (Real.log 2 * 1, c21) [(Real.log 2 * 1, c22)]
    (pushState
      (pushState ⟨[], 0, 0, ∅⟩ (Real.log 2 * 2, c11) (pyStrip c11.text))
      (Real.log 2 * 2, c12) (pyStrip c12.text))
    (by decide)]

/-- Counterexample to claim C1 as stated: both sources have two chunks
scoring strictly above `minScore = 0`, `topK = 2`, and the 100000
character budget dwarfs the 20-character snippets, yet both selected
rows come from source `s1`: the 0.12 diversity bonus cannot bridge the
`ln 2` score gap between the sources. -/
theorem claim_C1_counterexample :
    scoredList kbC1 qC1 0 =
      [(Real.log 2 * 2, c11), (Real.log 2 * 2, c12),
        (Real.log 2 * 1, c21), (Real.log 2 * 1, c22)] ∧
    0 < Real.log 2 ∧
    c11.source = ("s1") ∧ c12.source = ("s1") ∧
    c21.source = ("s2") ∧ c22.source = ("s2") ∧
    (retrieve kbC1 qC1 2 0 100000).1.map Evidence.source =
      [("s1"), ("s1")] := by
  refine ⟨scoredList_kbC1, Real.log_pos (by norm_num), rfl, rfl, rfl, rfl, ?_⟩
  unfold retrieve
  rw [if_neg (show ¬ (scoredList kbC1 qC1 0).isEmpty = true from by
    rw [scoredList_kbC1]; decide)]
  simp only
  rw [if_neg (show ¬ (retrieveState kbC1 qC1 2 0 100000).selected.isEmpty
      = true from by
    rw [retrieveState_kbC1]; simp [pushState])]
  simp only
  rw [retrieveState_kbC1]
  rfl

/-! ## Claim C1, witness index: four equal-scored chunks. -/

/-- A witness chunk; all four share tokens, frequencies and length. -/
def cw1 : Chunk :=
  { chunk_id := "w1"
    source := "s1"
    page := 0
    text := ("aa").toList
    tokens := {"aa"}
    termFreq := fun t => if t = ("aa") then 1 else 0
    length := 2 }

/-- Second chunk of source `s1`. -/
def cw2 : Chunk :=
  { chunk_id := "w2"
    source := "s1"
    page := 0
    text := ("aa").toList
    tokens := {"aa"}
    termFreq := fun t => if t = ("aa") then 1 else 0
    length := 2 }

/-- First chunk of source `s2`. -/
def cw3 : Chunk :=
  { chunk_id := "w3"
    source := "s2"
    page := 0
    text := ("aa").toList
    tokens := {"aa"}
    termFreq := fun t => if t = ("aa") then 1 else 0
    length := 2 }

/-- Second chunk of source `s2`. -/
def cw4 : Chunk :=
  { chunk_id := "w4"
    source := "s2"
    page := 0
    text := ("aa").toList
    tokens := {"aa"}
    termFreq := fun t => if t = ("aa") then 1 else 0
    length := 2 }

/-- The witness index: every chunk scores `ln(10/9)`. -/
def kbW : KnowledgeBase := { chunks := [cw1, cw2, cw3, cw4], images := [] }

/-- The witness query. -/
def qW : List Char := ("aa").toList

theorem avg_len_kbW : avg_len kbW = 2 := by
  unfold avg_len
  rw [show docCount kbW = 4 from rfl]
  norm_num [kbW, cw1, cw2, cw3, cw4]

theorem bm25_kbW (c : Chunk)
    (hset : (((tokenize_list qW).toFinset ∩ c.tokens)).filter
      (fun t => 0 < c.termFreq t) = {("aa")})
    (htf : c.termFreq ("aa") = 1)
    (hlenc : ((c.length : ℤ) : ℝ) = 2) :
    bm25Score kbW ((tokenize_list qW).toFinset) c = Real.log (10 / 9) := by
  rw [bm25_single kbW _ c ("aa") hset]
  rw [show idf kbW ("aa") = Real.log (10 / 9) from by
    unfold idf
    rw [show doc_freq kbW ("aa") = 4 from by decide,
      show docCount kbW = 4 from rfl]
    norm_num]
  rw [htf, hlenc, avg_len_kbW]
  rw [show max (1e-6 : ℝ) 2 = 2 from max_eq_right (by norm_num)]
  rw [show ((1 : ℤ) : ℝ) + 1.4 * (1 - 0.72 + 0.72 * 2 / 2) = 2.4 from by
    norm_num]
  rw [show max (1e-6 : ℝ) 2.4 = 2.4 from max_eq_right (by norm_num)]
  norm_num

theorem scoredList_kbW :
    scoredList kbW qW 0 =
      [(Real.log (10 / 9), cw1), (Real.log (10 / 9), cw2),
        (Real.log (10 / 9), cw3), (Real.log (10 / 9), cw4)] := by
  unfold scoredList
  rw [if_neg (by decide)]
  rw [show kbW.chunks = [cw1, cw2, cw3, cw4] from rfl]
  rw [List.filterMap_cons, List.filterMap_cons, List.filterMap_cons,
    List.filterMap_cons, List.filterMap_nil]
  rw [if_pos (show (((tokenize_list qW).toFinset ∩ cw1.tokens)).Nonempty
    from by decide)]
  rw [bm25_kbW cw1 (by decide) (by decide) (by norm_num [cw1])]
  rw [if_pos (show (0 : ℝ) ≤ Real.log (10 / 9) from
    Real.log_nonneg (by norm_num))]
  rw [if_pos (show (((tokenize_list qW).toFinset ∩ cw2.tokens)).Nonempty
    from by decide)]
  rw [bm25_kbW cw2 (by decide) (by decide) (by norm_num [cw2])]
  rw [if_pos (show (0 : ℝ) ≤ Real.log (10 / 9) from
    Real.log_nonneg (by norm_num))]
  rw [if_pos (show (((tokenize_list qW).toFinset ∩ cw3.tokens)).Nonempty
    from by decide)]
  rw [bm25_kbW cw3 (by decide) (by decide) (by norm_num [cw3])]
  rw [if_pos (show (0 : ℝ) ≤ Real.log (10 / 9) from
    Real.log_nonneg (by norm_num))]
  rw [if_pos (show (((tokenize_list qW).toFinset ∩ cw4.tokens)).Nonempty
    from by decide)]
  rw [bm25_kbW cw4 (by decide) (by decide) (by norm_num [cw4])]
  rw [if_pos (show (0 : ℝ) ≤ Real.log (10 / 9) from
    Real.log_nonneg (by norm_num))]

/-- Witness for amended claim C1 at the concrete index `kbW`: all four
candidate scores are equal, so the spread bound holds and both sources
appear in the selection. -/
theorem claim_C1_witness :
    ("s1") ∈ (retrieve kbW qW 2 0 100).1.map Evidence.source ∧
    ("s2") ∈ (retrieve kbW qW 2 0 100).1.map Evidence.source :=
  claim_C1_diversity kbW qW 2 0 100 ("s1") ("s2")
    (by norm_num)
    (by rw [scoredList_kbW]; norm_num)
    le_rfl
    (by decide)
    (by
      rw [scoredList_kbW]
      intro p hp
      simp only [List.mem_cons, List.not_mem_nil, or_false] at hp
      rcases hp with rfl | rfl | rfl | rfl
      · exact Or.inl rfl
      · exact Or.inl rfl
      · exact Or.inr rfl
      · exact Or.inr rfl)
    ⟨(Real.log (10 / 9), cw1),
      by rw [scoredList_kbW]; exact List.mem_cons_self _ _, rfl⟩
    ⟨(Real.log (10 / 9), cw3),
      by
        rw [scoredList_kbW]
        exact List.mem_cons_of_mem _ (List.mem_cons_of_mem _
          (List.mem_cons_self _ _)), rfl⟩
    (by
      rw [scoredList_kbW]
      intro p hp q hq
      simp only [List.mem_cons, List.not_mem_nil, or_false] at hp hq
      rcases hp with rfl | rfl | rfl | rfl <;>
        rcases hq with rfl | rfl | rfl | rfl <;>
        exact lt_add_of_pos_right _ (by norm_num))
    (by
      rw [scoredList_kbW]
      intro p hp
      simp only [List.mem_cons, List.not_mem_nil, or_false] at hp
      rcases hp with rfl | rfl | rfl | rfl <;> decide)
    (by
      rw [scoredList_kbW]
      intro p hp q hq
      simp only [List.mem_cons, List.not_mem_nil, or_false] at hp hq
      rcases hp with rfl | rfl | rfl | rfl <;>
        rcases hq with rfl | rfl | rfl | rfl <;> decide)

end AIExam
